import Mathlib

/-!
Verification development for the ie7-content-ops-mcp server.

The development shallowly embeds the JavaScript components that the checked
properties are about:

* `TemplateApplier` (getValueFromBrief, calculateSimilarity, levenshteinDistance,
  replaceVariables, removeSOPMarkers, createContentBlock, applyTemplate, ...)
* `SOPParser.parseTemplate` and its helpers,
* `CompletenessChecker` (assessCompleteness, findFieldValue, humanizeKey),
* `ConflictDetector` (detectConflicts and the five sub-detectors),
* the page-creation retry loop of `server.js` (processRequestAsync, step 9).

Strings are modelled as `List Char` (`JStr`); JavaScript/JSON values as the
inductive `JValue`.  JavaScript regular-expression scans are modelled by
explicit left-to-right scanners with the exact semantics of the patterns used
in the source (lazy repetition, word boundaries, case-insensitive flags, the
fact that `.` does not match a newline unless the `s` flag is present).
-/

set_option maxRecDepth 10000

namespace IE7

/-- Characters of a JavaScript string. -/
abbrev JStr := List Char

/-- JSON-like values: the shapes a brief field can take (`null` is a valid
JSON value and also stands for the JavaScript `null`). -/
inductive JValue where
  | str (s : JStr)
  | num (n : Int)
  | bool (b : Bool)
  | null
  | arr (xs : List JValue)
  | obj (fields : List (JStr × JValue))

/-- A brief object: string keys to values, in insertion order. -/
abbrev Brief := List (JStr × JValue)

/-- True exactly for the JavaScript `null` value. -/
def JValue.isNull : JValue → Bool
  | .null => true
  | _ => false

/-- True exactly for the empty-string value (JavaScript `v === ''`). -/
def JValue.isEmptyStr : JValue → Bool
  | .str [] => true
  | _ => false

/-- JavaScript truthiness of a value (`null`, `false`, `0`, `''` are falsy). -/
def truthy : JValue → Bool
  | .str s => !s.isEmpty
  | .num n => n != 0
  | .bool b => b
  | .null => false
  | .arr _ => true
  | .obj _ => true

/-- First hit of an early-returning `for` loop: apply `f` to each element in
order and return the first `some` result. -/
def firstHit : List α → (α → Option β) → Option β
  | [], _ => none
  | a :: l, f =>
    match f a with
    | some b => some b
    | none => firstHit l f

/-- JavaScript property read `obj[key] !== undefined ? obj[key] : undefined`
on an insertion-ordered object. -/
def lookupJS (key : JStr) (b : Brief) : Option JValue :=
  firstHit b (fun kv => if kv.1 = key then some kv.2 else none)

/-- Join a list of strings with a separator (JavaScript `Array.join`). -/
def joinWith (sep : JStr) : List JStr → JStr
  | [] => []
  | [x] => x
  | x :: xs => x ++ sep ++ joinWith sep xs

/-- Decimal digits of a natural number. -/
def natToChars (n : Nat) : JStr := (Nat.repr n).data

/-- Decimal rendering of an integer. -/
def intToChars (n : Int) : JStr := (Int.repr n).data

/-- ASCII decimal digit. -/
def isDigitCh (c : Char) : Bool := '0' ≤ c && c ≤ '9'

/-- Word character for the regex `\b` boundary: `[A-Za-z0-9_]`. -/
def isWordChar (c : Char) : Bool :=
  ('a' ≤ c && c ≤ 'z') || ('A' ≤ c && c ≤ 'Z') || isDigitCh c || c = '_'

/-- Whitespace recognised by JavaScript `\s` and `String.trim` (the ASCII part,
which is all that the embedded texts use). -/
def isJsWS (c : Char) : Bool :=
  c = ' ' || c = '\t' || c = '\n' || c = '\r' || c = '\x0b' || c = '\x0c'

/-- JavaScript `String.prototype.trim`. -/
def jsTrim (t : JStr) : JStr :=
  ((t.dropWhile isJsWS).reverse.dropWhile isJsWS).reverse

/-- JavaScript `String.prototype.toLowerCase` (ASCII, which is all the
embedded comparisons use). -/
def jsToLower (t : JStr) : JStr := t.map Char.toLower

/-- Numeric value of a digit run (JavaScript `parseInt` on an all-digit string). -/
def digitsToNat (ds : JStr) : Nat :=
  ds.foldl (fun a c => 10 * a + (c.toNat - '0'.toNat)) 0

/-- Does `hay` start with `needle`? -/
def startsWithStr : JStr → JStr → Bool
  | [], _ => true
  | _ :: _, [] => false
  | p :: ps, c :: cs => p == c && startsWithStr ps cs

/-- JavaScript `String.prototype.includes needle` on `hay`. -/
def containsSub (needle : JStr) : JStr → Bool
  | [] => needle.isEmpty
  | c :: cs => startsWithStr needle (c :: cs) || containsSub needle cs

/-- Case-insensitive literal prefix test: `pat` is given in lowercase and is
compared against the lowercased input. -/
def ciStarts : JStr → JStr → Bool
  | [], _ => true
  | _ :: _, [] => false
  | p :: ps, c :: cs => p == c.toLower && ciStarts ps cs

/-- Case-insensitive literal containment (`/lit/i.test(hay)`): `pat` given in
lowercase. -/
def ciContains (pat : JStr) (hay : JStr) : Bool :=
  containsSub pat (jsToLower hay)

/-- Deduplication preserving first occurrences (JavaScript `[...new Set(l)]`). -/
def dedupKeepFirst [DecidableEq α] (l : List α) : List α :=
  l.foldl (fun acc x => if x ∈ acc then acc else acc ++ [x]) []

/-- Minimal JSON string escaping used by `JSON.stringify` for the characters
that occur in the embedded texts. -/
def escapeJson : JStr → JStr
  | [] => []
  | c :: cs =>
    (if c = '"' then ['\\', '"']
     else if c = '\\' then ['\\', '\\']
     else if c = '\n' then ['\\', 'n']
     else if c = '\r' then ['\\', 'r']
     else if c = '\t' then ['\\', 't']
     else [c]) ++ escapeJson cs

mutual

/-- JavaScript `JSON.stringify` on the embedded value type. -/
def jsonStringify : JValue → JStr
  | .str s => '"' :: (escapeJson s ++ ['"'])
  | .num n => intToChars n
  | .bool true => "true".data
  | .bool false => "false".data
  | .null => "null".data
  | .arr xs => '[' :: (jsonStringifyArr xs ++ [']'])
  | .obj fs => '{' :: (jsonStringifyObj fs ++ ['}'])

/-- Comma-separated serialization of array elements. -/
def jsonStringifyArr : List JValue → JStr
  | [] => []
  | [x] => jsonStringify x
  | x :: y :: rest => jsonStringify x ++ ',' :: jsonStringifyArr (y :: rest)

/-- Comma-separated serialization of object entries. -/
def jsonStringifyObj : List (JStr × JValue) → JStr
  | [] => []
  | [kv] => '"' :: (escapeJson kv.1 ++ ['"', ':'] ++ jsonStringify kv.2)
  | kv :: kv2 :: rest =>
    ('"' :: (escapeJson kv.1 ++ ['"', ':'] ++ jsonStringify kv.2))
      ++ ',' :: jsonStringifyObj (kv2 :: rest)

end

mutual

/-- JavaScript `String(v)` conversion. -/
def jsToString : JValue → JStr
  | .str s => s
  | .num n => intToChars n
  | .bool true => "true".data
  | .bool false => "false".data
  | .null => "null".data
  | .arr xs => jsJoinCommaGo xs
  | .obj _ => "[object Object]".data

/-- `Array.prototype.join(',')` as invoked by `String(array)`: `null`
elements render as the empty string. -/
def jsJoinCommaGo : List JValue → JStr
  | [] => []
  | [e] => if e.isNull then [] else jsToString e
  | e :: e2 :: rest =>
    (if e.isNull then [] else jsToString e) ++ ',' :: jsJoinCommaGo (e2 :: rest)

end

/-! ## Field Resolver (`TemplateApplier.getValueFromBrief`, part_002 lines 95-218) -/

/-- Inner normalizer of `getValueFromBrief`: lowercase, drop `[_\s-]`, then
drop everything that is not `[a-z0-9]` — net effect: keep lowercased
alphanumerics only. -/
def normalizeForComparison (t : JStr) : JStr :=
  (jsToLower t).filter (fun c => ('a' ≤ c && c ≤ 'z') || isDigitCh c)

/-- JavaScript `varName.replace(/_/g, ' ')`. -/
def underscoreToSpace (t : JStr) : JStr :=
  t.map (fun c => if c = '_' then ' ' else c)

/-- JavaScript `varName.replace(/_/g, '')`. -/
def removeUnderscores (t : JStr) : JStr := t.filter (· ≠ '_')

/-- ASCII lowercase letter. -/
def isLowerAlpha (c : Char) : Bool := 'a' ≤ c && c ≤ 'z'

/-- ASCII uppercase letter. -/
def isUpperAlpha (c : Char) : Bool := 'A' ≤ c && c ≤ 'Z'

/-- JavaScript `varName.replace(/_([a-z])/g, g => g[1].toUpperCase())`. -/
def toCamel : JStr → JStr
  | '_' :: c :: rest =>
    if isLowerAlpha c then c.toUpper :: toCamel rest
    else '_' :: toCamel (c :: rest)
  | c :: rest => c :: toCamel rest
  | [] => []

/-- JavaScript `varName.replace(/([A-Z])/g, '_$1').toLowerCase()`. -/
def toSnake (t : JStr) : JStr :=
  jsToLower ((t.map (fun c => if isUpperAlpha c then ['_', c] else [c])).flatten)

/-- Body of the Title Case variation after the first character:
`slice(1).replace(/_([a-z])/g, g => ' ' + g[1].toUpperCase())`. -/
def underscoreToSpaceUpper : JStr → JStr
  | '_' :: c :: rest =>
    if isLowerAlpha c then ' ' :: c.toUpper :: underscoreToSpaceUpper rest
    else '_' :: underscoreToSpaceUpper (c :: rest)
  | c :: rest => c :: underscoreToSpaceUpper rest
  | [] => []

/-- Title Case variation:
`charAt(0).toUpperCase() + slice(1).replace(/_([a-z])/g, ' ' + upper)`. -/
def toTitleCase : JStr → JStr
  | [] => []
  | c :: rest => c.toUpper :: underscoreToSpaceUpper rest

/-- The list of naming-convention variations tried by `getValueFromBrief`. -/
def variationsOf (varName : JStr) : List JStr :=
  [varName,
   underscoreToSpace varName,
   removeUnderscores varName,
   toCamel varName,
   toSnake varName,
   toTitleCase varName]

/-- Levenshtein recurrence on explicit fuel (one unit per removed character;
`levenshteinDistance` supplies enough for the fallback never to be reached). -/
def levGo : Nat → JStr → JStr → Nat
  | _, [], ys => ys.length
  | _, x :: xs, [] => (x :: xs).length
  | 0, xs, ys => xs.length + ys.length
  | fuel + 1, x :: xs, y :: ys =>
    if x = y then levGo fuel xs ys
    else 1 + min (levGo fuel xs ys)
              (min (levGo fuel (x :: xs) ys) (levGo fuel xs (y :: ys)))

/-- Levenshtein edit distance; same recurrence as the dynamic-programming
matrix of `TemplateApplier.levenshteinDistance`. -/
def levenshteinDistance (a b : JStr) : Nat := levGo (a.length + b.length) a b

/-- `TemplateApplier.calculateSimilarity`: `(longer - editDistance) / longer`,
`1.0` when both strings are empty (exact rational arithmetic; the JavaScript
double computation agrees on all comparisons the code performs). -/
def calculateSimilarity (str1 str2 : JStr) : ℚ :=
  let longer := if str1.length > str2.length then str1 else str2
  let shorter := if str1.length > str2.length then str2 else str1
  if longer.length = 0 then 1
  else ((longer.length : ℚ) - (levenshteinDistance longer shorter : ℚ)) / (longer.length : ℚ)

/-- The hand-curated semantic alias table of `getValueFromBrief`. -/
def semanticMappings : List (JStr × List JStr) :=
  [("description".data,
     ["brief_details".data, "raw_brief".data, "details".data, "overview".data, "brief".data]),
   ("project_name".data, ["project name".data, "projectname".data, "title".data]),
   ("due_date".data, ["due dates".data, "deadline".data, "duedate".data, "publish by".data]),
   ("requested_by".data, ["client name".data, "requester".data, "requested by name".data]),
   ("platform".data, ["asset type".data, "channel".data]),
   ("client_email".data, ["contact email".data, "email".data])]

/-- `varName.toLowerCase().replace(/[_\s-]/g, '')` — the normalization used on
the variable-name side of the semantic-alias comparison. -/
def semClean (t : JStr) : JStr :=
  (jsToLower t).filter (fun c => !(c = '_' || isJsWS c || c = '-'))

/-- `canonical.replace(/[_\s-]/g, '')` — the normalization used on the
canonical side of the semantic-alias comparison. -/
def stripSep (t : JStr) : JStr :=
  t.filter (fun c => !(c = '_' || isJsWS c || c = '-'))

/-- Condition under which the aggressive fuzzy loop of `getValueFromBrief`
returns the entry for key `k` when resolving the normalized name `nv`:
normalized equality, or substring containment in either direction together
with similarity above `0.7`. -/
def fuzzyHit (nv : JStr) (k : JStr) : Bool :=
  let nk := normalizeForComparison k
  nk == nv
  || ((containsSub nv nk || containsSub nk nv)
      && decide (calculateSimilarity nk nv > 7 / 10))

/-- `TemplateApplier.getValueFromBrief` (part_002 lines 95-173): exact key,
then naming-convention variations, then the normalized fuzzy loop, then the
semantic alias table; `JValue.null` models the JavaScript `return null`. -/
def getValueFromBrief (varName : JStr) (briefData : Brief) : JValue :=
  let normalizedVar := normalizeForComparison varName
  match lookupJS varName briefData with
  | some v => v
  | none =>
    match firstHit (variationsOf varName) (fun w => lookupJS w briefData) with
    | some v => v
    | none =>
      match firstHit briefData (fun kv =>
          if fuzzyHit normalizedVar kv.1 then some kv.2 else none) with
      | some v => v
      | none =>
        match firstHit semanticMappings (fun ca =>
            if semClean varName = stripSep ca.1 then
              firstHit ca.2 (fun al =>
                firstHit briefData (fun kv =>
                  if normalizeForComparison kv.1 = normalizeForComparison al
                  then some kv.2 else none))
            else none) with
        | some v => v
        | none => JValue.null

/-- Claim-side predicate for C8: some brief key matches by exact lookup, a
naming-convention rewrite, normalized equality, normalized substring
containment with similarity above `0.7`, or the canonical alias table. -/
def matchesSomeStage (varName : JStr) (b : Brief) : Bool :=
  (lookupJS varName b).isSome
  || (variationsOf varName).any (fun w => (lookupJS w b).isSome)
  || b.any (fun kv => normalizeForComparison kv.1 == normalizeForComparison varName)
  || b.any (fun kv =>
      let nk := normalizeForComparison kv.1
      let nv := normalizeForComparison varName
      (containsSub nv nk || containsSub nk nv)
        && decide (calculateSimilarity nk nv > 7 / 10))
  || semanticMappings.any (fun ca =>
      semClean varName == stripSep ca.1
      && ca.2.any (fun al =>
          b.any (fun kv =>
            normalizeForComparison kv.1 == normalizeForComparison al)))

/-- No stored value of the brief is the literal `null`. -/
def nullFreeTop (b : Brief) : Bool := b.all (fun kv => !kv.2.isNull)

/-! ## Placeholder scanning (`/\{\{(.*?)\}\}/g`, part_002 lines 10 and 545)

The pattern has no `s` flag, so `.*?` cannot cross a newline: a match at a
given start position consumes `{{`, then the shortest run of non-newline
characters up to the nearest following `}}`. -/

/-- Lazy scan for the closing `}}` of a placeholder: walks over non-newline
characters until the next two adjacent closing braces, returning the interior
and the total number of characters consumed (interior plus the two braces).
Fails on a newline or the end of input, exactly as `.*?\}\}` does without the
`s` flag. -/
def closeScan : List Char → Option (List Char × Nat)
  | [] => none
  | c :: cs =>
    if c = '}' ∧ cs.head? = some '}' then some ([], 2)
    else if c = '\n' then none
    else
      match closeScan cs with
      | some (nm, k) => some (c :: nm, k + 1)
      | none => none

/-- Leftmost match of the placeholder pattern: returns the text before the
match, the captured name, and the text after the match.  On failure at a
start position the engine advances one character, exactly like the JavaScript
regex cursor. -/
def findPh : List Char → Option (List Char × List Char × List Char)
  | [] => none
  | c :: cs =>
    match (if c = '{' ∧ cs.head? = some '{' then closeScan cs.tail else none) with
    | some (nm, k) => some ([], nm, cs.tail.drop k)
    | none =>
      match findPh cs with
      | some (p, n, s) => some (c :: p, n, s)
      | none => none

/-- A decomposition witnessing a placeholder token with a newline-free
interior somewhere in the text: exactly the shape the placeholder pattern
can match. -/
def hasPh (t : List Char) : Prop :=
  ∃ p n s, t = p ++ '{' :: '{' :: (n ++ '}' :: '}' :: s) ∧ '\n' ∉ n

/-- Placeholder-name collection on explicit fuel (every step consumes at
least one character, so the input length is always enough fuel). -/
def extractVarsGo : Nat → List Char → List JStr
  | 0, _ => []
  | _, [] => []
  | fuel + 1, c :: cs =>
    match (if c = '{' ∧ cs.head? = some '{' then closeScan cs.tail else none) with
    | some (nm, k) => jsTrim nm :: extractVarsGo fuel (cs.tail.drop k)
    | none => extractVarsGo fuel cs

/-- `SOPParser.extractVariables`: all placeholder names in order, trimmed. -/
def extractVariables (t : JStr) : List JStr := extractVarsGo t.length t

/-- Rendering of one resolved placeholder by `TemplateApplier.replaceVariables`
(part_002 lines 294-312): `null`/not-found becomes `[name]` with the raw
captured name, arrays are joined with `', '`, objects are JSON-serialized,
scalars are string-converted. -/
def renderResolved (nm : JStr) (b : Brief) : JStr :=
  match getValueFromBrief (jsTrim nm) b with
  | .null => '[' :: (nm ++ [']'])
  | .arr xs =>
    joinWith (", ".data) (xs.map (fun e => if e.isNull then [] else jsToString e))
  | .obj fs => jsonStringify (.obj fs)
  | v => jsToString v

/-- Placeholder replacement on explicit fuel (every step consumes at least
one character, so the input length is always enough fuel and the exhaustion
fallback is unreachable). -/
def replaceVarsGo (b : Brief) : Nat → List Char → List Char
  | 0, t => t
  | _, [] => []
  | fuel + 1, c :: cs =>
    match (if c = '{' ∧ cs.head? = some '{' then closeScan cs.tail else none) with
    | some (nm, k) => renderResolved nm b ++ replaceVarsGo b fuel (cs.tail.drop k)
    | none => c :: replaceVarsGo b fuel cs

/-- `TemplateApplier.replaceVariables`: replace every match of the placeholder
pattern left to right; replacements are not rescanned. -/
def replaceVariables (b : Brief) (t : List Char) : List Char :=
  replaceVarsGo b t.length t

/-! ## SOP marker scanning (`/\[SOP:(.*?)\]/gs`, part_002 lines 544 and 320)

This pattern has the `s` flag: the lazy interior may cross newlines and stops
at the first `]`. -/

/-- Scan to the first `]`, returning the interior and the number of characters
consumed (interior plus the bracket). -/
def sopClose : List Char → Option (List Char × Nat)
  | [] => none
  | c :: cs =>
    if c = ']' then some ([], 1)
    else
      match sopClose cs with
      | some (nm, k) => some (c :: nm, k + 1)
      | none => none

/-- First-marker scan on explicit fuel. -/
def extractSOPGo : Nat → List Char → Option JStr
  | 0, _ => none
  | _, [] => none
  | fuel + 1, t =>
    match t with
    | '[' :: 'S' :: 'O' :: 'P' :: ':' :: rest =>
      (match sopClose rest with
       | some (nm, _) => some (jsTrim nm)
       | none => extractSOPGo fuel ('S' :: 'O' :: 'P' :: ':' :: rest))
    | _ :: cs => extractSOPGo fuel cs
    | [] => none

/-- `SOPParser.extractSOP`: the first `[SOP: ...]` marker's content, trimmed
(the source strips the `[SOP:` prefix with following whitespace and the final
bracket, then trims). -/
def extractSOP (t : JStr) : Option JStr := extractSOPGo t.length t

/-- All-markers scan on explicit fuel. -/
def extractAllSOPsGo : Nat → List Char → List JStr
  | 0, _ => []
  | _, [] => []
  | fuel + 1, t =>
    match t with
    | '[' :: 'S' :: 'O' :: 'P' :: ':' :: rest =>
      (match sopClose rest with
       | some (nm, k) => jsTrim nm :: extractAllSOPsGo fuel (rest.drop k)
       | none => extractAllSOPsGo fuel ('S' :: 'O' :: 'P' :: ':' :: rest))
    | _ :: cs => extractAllSOPsGo fuel cs
    | [] => []

/-- `SOPParser.extractAllSOPs`: every marker content in order, trimmed. -/
def extractAllSOPs (t : JStr) : List JStr := extractAllSOPsGo t.length t

/-- Marker removal on explicit fuel. -/
def stripSOPsGo : Nat → List Char → List Char
  | 0, t => t
  | _, [] => []
  | fuel + 1, t =>
    match t with
    | '[' :: 'S' :: 'O' :: 'P' :: ':' :: rest =>
      (match sopClose rest with
       | some (_, k) => stripSOPsGo fuel (rest.drop k)
       | none => '[' :: stripSOPsGo fuel ('S' :: 'O' :: 'P' :: ':' :: rest))
    | c :: cs => c :: stripSOPsGo fuel cs
    | [] => []

/-- Marker removal used by `TemplateApplier.removeSOPMarkers` before the final
trim: every `[SOP: ...]` match is replaced by the empty string. -/
def stripSOPs (t : JStr) : JStr := stripSOPsGo t.length t

/-- `TemplateApplier.removeSOPMarkers`:
`text.replace(/\[SOP:.*?\]/gs, '').trim()`. -/
def removeSOPMarkers (t : JStr) : JStr := jsTrim (stripSOPs t)

/-! ## Template data model (parser output, applier input) -/

/-- A template block as the parser sees it: its Notion type and the text
payload that `extractTextFromBlock` reads out of its rich-text runs. -/
structure NBlock where
  type : JStr
  text : JStr
deriving DecidableEq

/-- A parsed content entry of a section (the `originalBlock` reference of the
source is omitted: it only feeds the callout icon/color defaults, which none
of the checked properties mention). -/
structure ContentBlock where
  blockType : JStr
  content : JStr
  sops : List JStr
  vars : List JStr        -- source field name: variables
  isConditional : Bool
deriving DecidableEq

/-- A parsed template section. -/
structure Section where
  type : JStr
  level : JStr
  title : JStr
  sops : List JStr
  vars : List JStr        -- source field name: variables
  content : List ContentBlock
  isConditional : Bool
deriving DecidableEq

/-- The record returned by `SOPParser.parseTemplate`. -/
structure ParsedTemplate where
  sections : List Section
  totalSections : Nat
  totalSOPs : Nat
  totalVariables : Nat
  conditionalSections : Nat
deriving DecidableEq

/-- An output Notion block produced by `TemplateApplier.applyTemplate`,
reduced to its type tag and text content (rich-text annotations, icons and
colors carry no information the checked properties mention). -/
structure OutBlock where
  type : JStr
  content : JStr
deriving DecidableEq

/-! ## SOP parser (`SOPParser.parseTemplate`, part_002 lines 555-666) -/

/-- `SOPParser.isConditional`: the text matches one of six case-insensitive
conditional phrasings. -/
def isConditionalText (t : JStr) : Bool :=
  ["(if applicable)".data, "(if exists)".data, "(optional)".data,
   "(if available)".data, "(if provided)".data, "(conditional)".data].any
    (fun pat => ciContains pat t)

/-- A block whose extracted text is falsy or trims to the empty string is
skipped by the parser. -/
def isBlank (t : JStr) : Bool := (jsTrim t).isEmpty

/-- Is the block type one of the three heading types? -/
def isHeadingType (t : JStr) : Bool :=
  t = "heading_1".data || t = "heading_2".data || t = "heading_3".data

/-- Section opened by a heading block. -/
def mkHeadingSection (blk : NBlock) : Section :=
  { type := "section".data
    level := blk.type
    title := blk.text
    sops := []
    vars := extractVariables blk.text
    content := []
    isConditional := isConditionalText blk.text }

/-- Content entry built from a non-heading, non-toggle block. -/
def mkContentBlock (blk : NBlock) : ContentBlock :=
  { blockType := blk.type
    content := blk.text
    sops := extractAllSOPs blk.text
    vars := extractVariables blk.text
    isConditional := isConditionalText blk.text }

/-- Implicit section created when a toggle appears before any heading. -/
def mkSopSection (sop : JStr) : Section :=
  { type := "sop_block".data
    level := "instruction".data
    title := "Process Instruction".data
    sops := [sop]
    vars := []
    content := []
    isConditional := false }

/-- Implicit root section created when content appears before any heading. -/
def mkRootSection (cb : ContentBlock) : Section :=
  { type := "content".data
    level := "root".data
    title := "Template Content".data
    sops := []
    vars := []
    content := [cb]
    isConditional := false }

/-- Instruction recorded for a toggle block: the explicit `[SOP: ...]` marker
content when present and non-empty (JavaScript `||` falls through on the
empty string), otherwise the whole trimmed toggle text. -/
def toggleSop (text : JStr) : JStr :=
  match extractSOP text with
  | some s => if s.isEmpty then jsTrim text else s
  | none => jsTrim text

/-- One iteration of the parser's block loop.  The state is the list of
finished sections together with the currently open section. -/
def parseStep (st : List Section × Option Section) (blk : NBlock) :
    List Section × Option Section :=
  if isBlank blk.text then st
  else if isHeadingType blk.type then
    (st.1 ++ st.2.toList, some (mkHeadingSection blk))
  else if blk.type = "toggle".data then
    match st.2 with
    | some cur => (st.1, some { cur with sops := cur.sops ++ [toggleSop blk.text] })
    | none => (st.1, some (mkSopSection (toggleSop blk.text)))
  else
    match st.2 with
    | some cur => (st.1, some { cur with content := cur.content ++ [mkContentBlock blk] })
    | none => (st.1, some (mkRootSection (mkContentBlock blk)))

/-- The parser's loop over all blocks. -/
def parseBlocks : List NBlock → List Section × Option Section → List Section × Option Section
  | [], st => st
  | b :: bs, st => parseBlocks bs (parseStep st b)

/-- `SOPParser.countTotalSOPs`. -/
def countTotalSOPs (secs : List Section) : Nat :=
  (secs.map (fun s => s.sops.length + (s.content.map (fun cb => cb.sops.length)).sum)).sum

/-- `SOPParser.countTotalVariables`: the number of distinct variables across
sections and their content. -/
def countTotalVariables (secs : List Section) : Nat :=
  (dedupKeepFirst (secs.flatMap (fun s => s.vars ++ s.content.flatMap (fun cb => cb.vars)))).length

/-- `SOPParser.parseTemplate`. -/
def parseTemplate (blocks : List NBlock) : ParsedTemplate :=
  let st := parseBlocks blocks ([], none)
  let sections := st.1 ++ st.2.toList
  { sections := sections
    totalSections := sections.length
    totalSOPs := countTotalSOPs sections
    totalVariables := countTotalVariables sections
    conditionalSections := (sections.filter (fun s => s.isConditional)).length }

/-- The heading-opened sections of a parse result, reduced to their level and
title, in order. -/
def headingSel (secs : List Section) : List (JStr × JStr) :=
  (secs.filter (fun s => s.type == "section".data)).map (fun s => (s.level, s.title))

/-- Total number of process instructions recorded at section level. -/
def sectionSopsTotal (secs : List Section) : Nat :=
  (secs.map (fun s => s.sops.length)).sum

/-! ## Template applier (`TemplateApplier.applyTemplate`, part_002 lines 22-89
and 224-442) -/

/-- Does a resolved variable count as data
(`value !== null && value !== undefined && value !== ''`)? -/
def hasDataValue (brief : Brief) (varName : JStr) : Bool :=
  let value := getValueFromBrief varName brief
  !value.isNull && !value.isEmptyStr

/-- `TemplateApplier.sectionHasData`. -/
def sectionHasData (s : Section) (brief : Brief) : Bool :=
  (s.vars ++ s.content.flatMap (fun c => c.vars)).any (hasDataValue brief)

/-- `TemplateApplier.contentHasData`. -/
def contentHasData (cb : ContentBlock) (brief : Brief) : Bool :=
  cb.vars.isEmpty || cb.vars.any (hasDataValue brief)

/-- `TemplateApplier.createHeadingBlock`. -/
def createHeadingBlock (level title : JStr) (brief : Brief) : OutBlock :=
  { type := level, content := replaceVariables brief title }

/-- `TemplateApplier.createParagraph`: skips empty content. -/
def createParagraph (content : JStr) : Option OutBlock :=
  if content.isEmpty || (jsTrim content).isEmpty then none
  else some { type := "paragraph".data, content := content }

/-- `TemplateApplier.createContentBlock`: variable replacement, marker
removal, then the block-type switch (unknown types fall back to paragraphs). -/
def createContentBlock (cb : ContentBlock) (brief : Brief) : Option OutBlock :=
  let content := removeSOPMarkers (replaceVariables brief cb.content)
  if cb.blockType = "paragraph".data then createParagraph content
  else if cb.blockType = "heading_1".data ∨ cb.blockType = "heading_2".data
          ∨ cb.blockType = "heading_3".data then
    some { type := cb.blockType, content := content }
  else if cb.blockType = "callout".data then
    some { type := "callout".data, content := content }
  else if cb.blockType = "quote".data then
    some { type := "quote".data, content := content }
  else if cb.blockType = "bulleted_list_item".data then
    some { type := "bulleted_list_item".data, content := content }
  else if cb.blockType = "numbered_list_item".data then
    some { type := "numbered_list_item".data, content := content }
  else if cb.blockType = "toggle".data then
    some { type := "toggle".data, content := content }
  else if cb.blockType = "divider".data then
    some { type := "divider".data, content := [] }
  else createParagraph content

/-- Blocks contributed by one section inside `applyTemplate`'s loop:
conditional sections without data are skipped whole; the heading is emitted
when level and title are truthy; conditional content without data is skipped;
`createContentBlock` results that are `null` are dropped. -/
def applySection (brief : Brief) (s : Section) : List OutBlock :=
  if s.isConditional && !sectionHasData s brief then []
  else
    (if ¬s.level.isEmpty ∧ ¬s.title.isEmpty
     then [createHeadingBlock s.level s.title brief] else [])
    ++ s.content.filterMap (fun cb =>
        if cb.isConditional && !contentHasData cb brief then none
        else createContentBlock cb brief)

/-- `TemplateApplier.applyTemplate` (the unused `semanticMapping` parameter of
the source is dropped). -/
def applyTemplate (pt : ParsedTemplate) (brief : Brief) : List OutBlock :=
  pt.sections.flatMap (applySection brief)

/-! ## Completeness checker (`src/lib/completeness-checker.js`) -/

/-- One advisory flag of the completeness assessment. -/
structure SoftFlag where
  field : JStr
  severity : JStr
  recommendation : JStr
deriving DecidableEq

/-- The assessment record returned by `assessCompleteness`. -/
structure Assessment where
  complete : Bool
  normalTBDs : List JStr
  softFlags : List SoftFlag
  criticalMissing : List JStr
  complexityAppropriate : Bool
deriving DecidableEq

/-- The special label table of `CompletenessChecker.humanizeKey`. -/
def specialMappings : List (JStr × JStr) :=
  [("user_id".data, "User ID".data),
   ("project_name".data, "Project Name".data),
   ("raw_footage".data, "Raw Footage".data),
   ("color_grading".data, "Color Grading".data),
   ("music_preference".data, "Music Preference".data),
   ("branding_elements".data, "Branding Elements".data),
   ("shot_list".data, "Shot List".data),
   ("budget_breakdown".data, "Budget Breakdown".data)]

/-- Split at every space character, preserving empty words
(JavaScript `String.prototype.split(' ')`). -/
def splitSpace : List Char → List JStr
  | [] => [[]]
  | ' ' :: cs => [] :: splitSpace cs
  | c :: cs =>
    match splitSpace cs with
    | w :: ws => (c :: w) :: ws
    | [] => [[c]]

/-- Capitalize the first character of a word
(`word.charAt(0).toUpperCase() + word.slice(1)`). -/
def capitalizeWord : JStr → JStr
  | [] => []
  | c :: cs => c.toUpper :: cs

/-- `CompletenessChecker.humanizeKey`. -/
def humanizeKey (key : JStr) : JStr :=
  let lowerKey := underscoreToSpace (jsToLower key)
  match firstHit specialMappings
      (fun kv => if kv.1 = jsToLower key then some kv.2 else none) with
  | some label => label
  | none => joinWith [' '] ((splitSpace lowerKey).map capitalizeWord)

mutual

/-- Computable structural size of a value, used as a fuel bound. -/
def jvSize : JValue → Nat
  | .obj fs => 1 + jvSizeObj fs
  | .arr xs => 1 + jvSizeArr xs
  | _ => 1

/-- Computable structural size of an array body. -/
def jvSizeArr : List JValue → Nat
  | [] => 0
  | x :: xs => 1 + jvSize x + jvSizeArr xs

/-- Computable structural size of an object body. -/
def jvSizeObj : List (JStr × JValue) → Nat
  | [] => 0
  | kv :: xs => 1 + jvSize kv.2 + jvSizeObj xs

end

/-- Recursion kernel of `findFieldValue` on explicit fuel: the first stage
tries the four naming-convention keys with a truthiness test; the second
stage walks the entries in order and descends into object-valued ones (plain
objects only: arrays and `null` are excluded by the source's type test).
One fuel unit is spent per descent level, so any bound above the nesting
depth — `findFieldValue` supplies `jvSizeObj briefData + 1` — makes the
exhaustion fallback unreachable. -/
def findFieldGo : Nat → Brief → JStr → Option JValue
  | 0, _, _ => none
  | fuel + 1, briefData, fieldKey =>
    match firstHit
        [fieldKey, jsToLower fieldKey, underscoreToSpace fieldKey,
         jsToLower (removeUnderscores fieldKey)]
        (fun k =>
          match lookupJS k briefData with
          | some v => if truthy v then some v else none
          | none => none) with
    | some v => some v
    | none =>
      firstHit briefData (fun kv =>
        match kv.2 with
        | .obj fs =>
          (match findFieldGo fuel fs fieldKey with
           | some v => if truthy v then some v else none
           | none => none)
        | _ => none)

/-- `CompletenessChecker.findFieldValue`.  `none` models the JavaScript
`return null`. -/
def findFieldValue (briefData : Brief) (fieldKey : JStr) : Option JValue :=
  findFieldGo (jvSizeObj briefData + 1) briefData fieldKey

/-- The fixed core-field list of `assessCompleteness`. -/
def coreFields : List JStr :=
  ["project_name".data, "deliverables".data, "timeline".data]

/-- Code-side flag condition:
`!value || (typeof value === 'string' && value.toLowerCase() === 'tbd')`. -/
def codeFlagged (brief : Brief) (f : JStr) : Bool :=
  match findFieldValue brief f with
  | none => true
  | some v =>
    !truthy v
    || (match v with
        | .str s => jsToLower s == "tbd".data
        | _ => false)

/-- Claim-side flag condition: the lookup yields no value (which also covers
empty values, since the truthiness test never returns one) or the literal
token `"TBD"`. -/
def claimFlagged (brief : Brief) (f : JStr) : Bool :=
  match findFieldValue brief f with
  | none => true
  | some v =>
    match v with
    | .str s => s == "TBD".data
    | _ => false

/-- The flag pushed for a missing core field. -/
def mkSoftFlag (label : JStr) : SoftFlag :=
  { field := label
    severity := "medium".data
    recommendation :=
      "Recommended: Confirm ".data ++ label ++ " before proceeding".data }

/-- `CompletenessChecker.assessCompleteness` (the `complexity`/`requestType`
parameters are unused by the computation and omitted). -/
def assessCompleteness (briefData : Brief) : Assessment :=
  coreFields.foldl
    (fun acc f =>
      if codeFlagged briefData f then
        { acc with
            softFlags := acc.softFlags ++ [mkSoftFlag (humanizeKey f)]
            complete := false }
      else acc)
    { complete := true
      normalTBDs := []
      softFlags := []
      criticalMissing := []
      complexityAppropriate := true }

/-! ## Conflict detector (`src/unnamed/part_003`) -/

/-- A conflict record pushed by `ConflictDetector`: every constructor site in
the source fills all five fields, including a `recommendation`. -/
structure Conflict where
  type : JStr
  severity : JStr
  description : JStr
  recommendation : JStr
  impact : JStr
deriving DecidableEq

/-- `this.conflictTypes.TIMELINE_SCOPE`. -/
def timelineScopeType : JStr := "timeline_scope".data

/-- `this.conflictTypes.BUDGET_SCOPE`. -/
def budgetScopeType : JStr := "budget_scope".data

/-- `this.conflictTypes.TECHNICAL_CONTRADICTION`. -/
def technicalContradictionType : JStr := "technical_contradiction".data

/-- `this.conflictTypes.RESOURCE_MISMATCH`. -/
def resourceMismatchType : JStr := "resource_mismatch".data

/-- `this.conflictTypes.EXPECTATION_REALITY`. -/
def expectationRealityType : JStr := "expectation_reality".data

/-- Serialized brief text: `JSON.stringify(briefData)`. -/
def briefText (brief : Brief) : JStr := jsonStringify (.obj brief)

/-- Lowercased serialized brief text: `JSON.stringify(briefData).toLowerCase()`. -/
def briefTextLower (brief : Brief) : JStr := jsToLower (briefText brief)

/-- Match of the duration unit at a position, after digits and whitespace:
the alternation `(?:second|sec|s\b)` with the `i` flag; returns the number of
characters it consumes. -/
def matchSecUnit (r : List Char) : Option Nat :=
  if ciStarts "second".data r then some 6
  else if ciStarts "sec".data r then some 3
  else
    match r with
    | c :: rest =>
      if c.toLower = 's' ∧ (match rest.head? with
                            | some d => !isWordChar d
                            | none => true) = true
      then some 1 else none
    | [] => none

/-- Match of `(\d+)\s*(?:second|sec|s\b)` at one start position: greedy
digits, optional whitespace, then the unit; returns the parsed number and the
total number of characters consumed. -/
def matchSecAt (s : List Char) : Option (Nat × Nat) :=
  let ds := s.takeWhile isDigitCh
  if ds.isEmpty then none
  else
    let r1 := s.drop ds.length
    let sp := r1.takeWhile isJsWS
    match matchSecUnit (r1.drop sp.length) with
    | some u => some (digitsToNat ds, ds.length + sp.length + u)
    | none => none

/-- Global scan of `briefText.match(/(\d+)\s*(?:second|sec|s\b)/gi)` mapped
through `parseInt`: the numeric values of all matches, left to right.  (On a
successful match at `c :: cs` the scan resumes after the match; the consumed
count `k` is at least one, so `(c :: cs).drop k = cs.drop (k - 1)`.) -/
def scanSecondsGo : Nat → List Char → List Nat
  | 0, _ => []
  | _, [] => []
  | fuel + 1, c :: cs =>
    match matchSecAt (c :: cs) with
    | some (v, k) => v :: scanSecondsGo fuel (cs.drop (k - 1))
    | none => scanSecondsGo fuel cs

/-- The full seconds-form duration scan of the brief text. -/
def scanSeconds (t : List Char) : List Nat := scanSecondsGo t.length t

/-- Duration-contradiction part of `detectTechnicalConflicts` (part_003 lines
182-196): more than one match and more than one distinct value yield exactly
one conflict. -/
def durationConflicts (text : JStr) : List Conflict :=
  let ms := scanSeconds text
  if 1 < ms.length then
    let unique := dedupKeepFirst ms
    if 1 < unique.length then
      [{ type := technicalContradictionType
         severity := "medium".data
         description :=
           "Multiple different durations mentioned: ".data
             ++ joinWith "s, ".data (unique.map natToChars) ++ "s".data
         recommendation := "Clarify: Which duration is correct?".data
         impact := "Freelancer confusion - may deliver wrong length".data }]
    else []
  else []

/-- Aspect-ratio part of `detectTechnicalConflicts` (part_003 lines 199-213). -/
def aspectConflicts (text : JStr) : List Conflict :=
  let hasVertical :=
    ciContains "vertical".data text || ciContains "9:16".data text
      || ciContains "1080x1920".data text
  let hasHorizontal :=
    ciContains "horizontal".data text || ciContains "16:9".data text
      || ciContains "1920x1080".data text
  let hasSquare :=
    ciContains "square".data text || ciContains "1:1".data text
      || ciContains "1080x1080".data text
  if 1 < ([hasVertical, hasHorizontal, hasSquare].filter id).length then
    [{ type := technicalContradictionType
       severity := "medium".data
       description :=
         "Multiple aspect ratios mentioned (vertical, horizontal, square)".data
       recommendation :=
         "Clarify: Are multiple formats needed, or is one primary?".data
       impact :=
         "May require additional deliverables not accounted for in timeline/budget".data }]
  else []

/-- `ConflictDetector.detectTechnicalConflicts`. -/
def detectTechnicalConflicts (brief : Brief) : List Conflict :=
  durationConflicts (briefText brief) ++ aspectConflicts (briefText brief)

/-- Modelled from the spec: the duration scan that §4.4 additionally ascribes
to the detector for minute-form mentions (`"N min"`), which has no
counterpart in the source.  Digits, optional whitespace, then the literal
`min`, case-insensitively, scanned globally. -/
def matchMinAt (s : List Char) : Option (Nat × Nat) :=
  let ds := s.takeWhile isDigitCh
  if ds.isEmpty then none
  else
    let r1 := s.drop ds.length
    let sp := r1.takeWhile isJsWS
    if ciStarts "min".data (r1.drop sp.length) then
      some (digitsToNat ds, ds.length + sp.length + 3)
    else none

/-- Modelled from the spec: all minute-form duration mentions (`"N min"`) in
the text, left to right. -/
def minuteMentionsGo : Nat → List Char → List Nat
  | 0, _ => []
  | _, [] => []
  | fuel + 1, c :: cs =>
    match matchMinAt (c :: cs) with
    | some (v, k) => v :: minuteMentionsGo fuel (cs.drop (k - 1))
    | none => minuteMentionsGo fuel cs

/-- Modelled from the spec: the left-to-right minute-mention scan. -/
def minuteMentions (t : List Char) : List Nat := minuteMentionsGo t.length t

/-- First `||`-chosen truthy value among the date fields read by
`estimateDaysAvailable`:
`briefData.Due_Dates || briefData.deadline || briefData['Due Dates']`. -/
def dueDateField (brief : Brief) : Option JValue :=
  firstHit ["Due_Dates".data, "deadline".data, "Due Dates".data] (fun k =>
    match lookupJS k brief with
    | some v => if truthy v then some v else none
    | none => none)

/-- `ConflictDetector.estimateDaysAvailable`.  The wall-clock-dependent branch
(`new Date(dateMatch) - now`, rounded up to days, `null` on exception and a
falsy `NaN` on an unparsable date) is abstracted by the `clock` oracle. -/
def estimateDaysAvailable (clock : JValue → Option Nat) (brief : Brief) : Option Nat :=
  let text := briefTextLower brief
  if containsSub "today".data text || containsSub "immediate".data text then some 0
  else if containsSub "tomorrow".data text then some 1
  else if containsSub "this week".data text then some 3
  else if containsSub "next week".data text then some 7
  else if containsSub "two weeks".data text then some 14
  else if containsSub "month".data text then some 30
  else
    match dueDateField brief with
    | some v => clock v
    | none => none

/-- The scope indicators counted by `detectTimelineConflicts`. -/
def scopeIndicators : List JStr :=
  ["photoshoot".data, "shoot".data, "filming".data, "editing".data,
   "post-production".data, "motion graphics".data, "animation".data,
   "color grading".data, "sound design".data, "multiple formats".data,
   "various platforms".data]

/-- The urgency keywords of `detectTimelineConflicts`. -/
def urgentIndicators : List JStr :=
  ["today".data, "tomorrow".data, "urgent".data, "asap".data,
   "24 hour".data, "immediate".data]

/-- `ConflictDetector.detectTimelineConflicts`.  `daysAvailable &&
daysAvailable <= 2` is falsy for `0` and for a missing estimate. -/
def detectTimelineConflicts (clock : JValue → Option Nat) (brief : Brief)
    (complexity : JStr) : List Conflict :=
  let text := briefTextLower brief
  let scopeCount := (scopeIndicators.filter (fun ind => containsSub ind text)).length
  let isUrgent := urgentIndicators.any (fun ind => containsSub ind text)
  let daysAvailable := estimateDaysAvailable clock brief
  let daysTruthyLe2 :=
    match daysAvailable with
    | some d => d ≠ 0 && d ≤ 2
    | none => false
  let daysTruthyGt30 :=
    match daysAvailable with
    | some d => d ≠ 0 && 30 < d
    | none => false
  (if isUrgent || daysTruthyLe2 then
    if 3 ≤ scopeCount then
      [{ type := timelineScopeType
         severity := "high".data
         description :=
           "Timeline is ".data
             ++ (if isUrgent then "urgent".data
                 else "only ".data
                   ++ natToChars (daysAvailable.getD 0) ++ " days".data)
             ++ ", but scope includes ".data ++ natToChars scopeCount
             ++ " production stages (photoshoot, editing, motion graphics, etc.). This is likely not feasible.".data
         recommendation :=
           "Urgent client conversation needed: Either extend timeline or reduce scope".data
         impact := "High risk of missed deadline or quality compromise".data }]
    else if 2 ≤ scopeCount ∧ complexity = "3-Course Meal".data then
      [{ type := timelineScopeType
         severity := "medium".data
         description :=
           "Complex project (".data ++ complexity
             ++ ") with tight timeline and multi-stage production".data
         recommendation :=
           "Consider prioritizing must-have deliverables vs nice-to-haves".data
         impact := "Possible deadline pressure".data }]
    else []
  else [])
  ++
  (if daysTruthyGt30 = true ∧ scopeCount ≤ 1 ∧ complexity = "Cup of Tea".data then
    [{ type := expectationRealityType
       severity := "low".data
       description :=
         "Simple ".data ++ complexity ++ " project with ".data
           ++ natToChars (daysAvailable.getD 0) ++ "+ day timeline seems generous".data
       recommendation :=
         "Confirm if there are dependencies or milestones not mentioned".data
       impact := "Possible resource inefficiency".data }]
  else [])

/-- First match of `/[£$€][\d,]+/` followed by
`parseInt(match.replace(/[£$€,]/g, ''))`, with the JavaScript falsiness of
`NaN` (no digits) and `0` folded in: `none` exactly when `!budget` holds. -/
def budgetOf : List Char → Option Nat
  | [] => none
  | c :: cs =>
    if (c = '£' || c = '$' || c = '€')
        && !(cs.takeWhile (fun d => isDigitCh d || d = ',')).isEmpty then
      let run := cs.takeWhile (fun d => isDigitCh d || d = ',')
      let ds := run.filter isDigitCh
      if ds.isEmpty then none
      else if digitsToNat ds = 0 then none
      else some (digitsToNat ds)
    else budgetOf cs

/-- The expensive-element table of `detectBudgetConflicts`:
search term, estimated cost, display name. -/
def expensiveElements : List (JStr × Nat × JStr) :=
  [("photoshoot".data, 1000, "Professional photoshoot".data),
   ("video editing".data, 800, "Video editing".data),
   ("motion graphics".data, 1200, "Motion graphics".data),
   ("animation".data, 1500, "Animation".data),
   ("custom music".data, 500, "Custom music composition".data),
   ("color grading".data, 400, "Professional color grading".data),
   ("3d".data, 2000, "3D work".data),
   ("drone".data, 600, "Drone footage".data)]

/-- `ConflictDetector.detectBudgetConflicts`.  The 20%-buffer comparison
`estimatedCost > budget * 1.2` is written as the exact rational comparison
`10 * estimatedCost > 12 * budget`. -/
def detectBudgetConflicts (brief : Brief) (complexity : JStr) : List Conflict :=
  let text := briefTextLower brief
  match budgetOf text with
  | none => []
  | some budget =>
    let requiredElements :=
      expensiveElements.filter (fun el => containsSub el.1 text)
    let estimatedCost := (requiredElements.map (fun el => el.2.1)).sum
    (if 12 * budget < 10 * estimatedCost then
      [{ type := budgetScopeType
         severity := "high".data
         description :=
           "Budget is £".data ++ natToChars budget
             ++ " but scope suggests ~£".data ++ natToChars estimatedCost
             ++ " worth of work: ".data
             ++ joinWith ", ".data (requiredElements.map (fun el => el.2.2))
         recommendation :=
           "Critical: Scope needs to be reduced or budget increased significantly".data
         impact :=
           "Project likely unprofitable or undeliverable at current budget".data }]
    else if budget < estimatedCost then
      [{ type := budgetScopeType
         severity := "medium".data
         description :=
           "Budget (£".data ++ natToChars budget
             ++ ") is tight for requested scope (est. £".data
             ++ natToChars estimatedCost ++ ")".data
         recommendation :=
           "Review scope priorities with client - some elements may need to be optional".data
         impact := "Thin margins - monitor costs closely".data }]
    else [])
    ++
    (if 5000 < budget ∧ complexity = "Cup of Tea".data
        ∧ requiredElements.length ≤ 1 then
      [{ type := expectationRealityType
         severity := "low".data
         description :=
           "Simple ".data ++ complexity ++ " project with £".data
             ++ natToChars budget ++ " budget seems generous".data
         recommendation :=
           "Confirm scope - client may expect more than currently specified".data
         impact := "Possible scope creep risk if expectations unclear".data }]
    else [])

/-- The specialized-skill keywords of `detectResourceConflicts`. -/
def specializedSkills : List JStr :=
  ["3d animation".data, "vfx".data, "visual effects".data, "compositing".data,
   "advanced color grading".data, "cinema camera".data, "red camera".data,
   "sound design".data, "audio mixing".data, "original score".data]

/-- `ConflictDetector.detectResourceConflicts`. -/
def detectResourceConflicts (brief : Brief) : List Conflict :=
  let text := briefTextLower brief
  let requiresSpecialist := specializedSkills.any (fun sk => containsSub sk text)
  let seemsSimple :=
    containsSub "simple".data text || containsSub "basic".data text
      || containsSub "quick".data text
  if requiresSpecialist && seemsSimple then
    [{ type := resourceMismatchType
       severity := "medium".data
       description :=
         "Brief mentions specialized skills (3D, VFX, etc.) but also describes project as \"simple\" or \"quick\"".data
       recommendation :=
         "Confirm complexity level - specialized work typically not \"simple\"".data
       impact := "Possible misalignment on project complexity".data }]
  else []

/-- The premium-language terms of `detectExpectationConflicts`. -/
def premiumTerms : List JStr :=
  ["luxury".data, "high-end".data, "premium".data, "exclusive".data,
   "cinema".data, "commercial grade".data]

/-- `ConflictDetector.detectExpectationConflicts`. -/
def detectExpectationConflicts (brief : Brief) (_complexity : JStr) : List Conflict :=
  let text := briefTextLower brief
  let hasPremiumExpectations := premiumTerms.any (fun term => containsSub term text)
  match budgetOf text with
  | some budget =>
    if hasPremiumExpectations ∧ budget < 3000 then
      [{ type := expectationRealityType
         severity := "medium".data
         description :=
           "Client uses premium language (".data
             ++ joinWith ", ".data (premiumTerms.filter (fun t => containsSub t text))
             ++ ") but budget is under £3k".data
         recommendation :=
           "Set expectations: Premium aesthetics typically require higher investment".data
         impact :=
           "Client satisfaction risk if expectations not aligned with budget reality".data }]
    else []
  | none => []

/-- `ConflictDetector.detectConflicts`: the five sub-detectors in source
order. -/
def detectConflicts (clock : JValue → Option Nat) (brief : Brief)
    (complexity : JStr) : List Conflict :=
  detectTimelineConflicts clock brief complexity
    ++ detectBudgetConflicts brief complexity
    ++ detectTechnicalConflicts brief
    ++ detectResourceConflicts brief
    ++ detectExpectationConflicts brief complexity

/-! ## Page-creation retry loop (`server.js`, processRequestAsync step 9,
lines 374-450)

The loop declares `let retryCount = 0`, `const maxRetries = 2` and calls
`API-post-page` while `retryCount <= maxRetries`.  On a validation error it
enters the correction branch when `retryCount < maxRetries`, calls the
reasoning service, and then executes `notionProperties = JSON.parse(...)`
(line 427).  `notionProperties` was declared with `const` at line 365, so
that assignment throws `TypeError: Assignment to constant variable.`, which
the inner `catch (correctionError)` at line 430 swallows before executing
`break` — leaving the loop without ever re-attempting the page creation.
The same `break` runs when the reasoning call itself fails, so the branch has
a single outcome either way. -/

/-- Outcome of one execution of the creation loop: how many `API-post-page`
calls and how many correction round-trips through the reasoning service were
made, whether a page was created, and the `attempts` count reported by the
final validation check (`retryCount + 1`). -/
structure CreateOutcome where
  createCalls : Nat
  correctionCalls : Nat
  succeeded : Bool
  attemptsReported : Nat
deriving DecidableEq

/-- The loop body, parametrized by which creation attempts would pass
validation (`attemptOk k` is the verdict of the `k`-th `API-post-page`
call). -/
def createLoopGo (attemptOk : Nat → Bool) :
    Nat → Nat → Nat → Nat → CreateOutcome
  | 0, retryCount, creates, corrections =>
    -- fuel exhausted; unreachable from `createPageLoop`, which supplies
    -- one unit per possible loop iteration
    { createCalls := creates
      correctionCalls := corrections
      succeeded := false
      attemptsReported := retryCount + 1 }
  | fuel + 1, retryCount, creates, corrections =>
    if retryCount ≤ 2 then
      if attemptOk creates then
        { createCalls := creates + 1
          correctionCalls := corrections
          succeeded := true
          attemptsReported := retryCount + 1 }
      else
        if retryCount < 2 then
          -- correction round-trip: the reasoning call runs, then the
          -- assignment to the const binding throws and the inner catch breaks
          { createCalls := creates + 1
            correctionCalls := corrections + 1
            succeeded := false
            attemptsReported := retryCount + 1 }
        else
          createLoopGo attemptOk fuel (retryCount + 1) (creates + 1) corrections
    else
      { createCalls := creates
        correctionCalls := corrections
        succeeded := false
        attemptsReported := retryCount + 1 }

/-- The page-creation step of `processRequestAsync`. -/
def createPageLoop (attemptOk : Nat → Bool) : CreateOutcome :=
  createLoopGo attemptOk 4 0 0 0

/-! ## Helper lemmas -/

theorem firstHit_eq_none_iff {α β} (l : List α) (f : α → Option β) :
    firstHit l f = none ↔ ∀ a ∈ l, f a = none := by
  induction l with
  | nil => simp [firstHit]
  | cons a l ih =>
    simp only [firstHit]
    cases h : f a with
    | some b => simp [h]
    | none => simpa [h] using ih

theorem firstHit_eq_some {α β} {l : List α} {f : α → Option β} {b : β}
    (h : firstHit l f = some b) : ∃ a ∈ l, f a = some b := by
  induction l with
  | nil => simp [firstHit] at h
  | cons a l ih =>
    simp only [firstHit] at h
    cases hfa : f a with
    | some b' =>
      rw [hfa] at h
      exact ⟨a, by simp, by simpa [hfa] using h⟩
    | none =>
      rw [hfa] at h
      obtain ⟨a', ha', hfa'⟩ := ih h
      exact ⟨a', by simp [ha'], hfa'⟩

theorem mem_dedup_aux {α} [DecidableEq α] (l : List α) :
    ∀ acc x, (x ∈ l.foldl (fun acc x => if x ∈ acc then acc else acc ++ [x]) acc
      ↔ x ∈ acc ∨ x ∈ l) := by
  induction l with
  | nil => simp
  | cons a l ih =>
    intro acc x
    simp only [List.foldl_cons]
    rw [ih]
    by_cases h : a ∈ acc
    · simp only [if_pos h]
      constructor
      · rintro (hx | hx)
        · exact Or.inl hx
        · exact Or.inr (List.mem_cons_of_mem _ hx)
      · rintro (hx | hx)
        · exact Or.inl hx
        · rcases List.mem_cons.mp hx with rfl | hx
          · exact Or.inl h
          · exact Or.inr hx
    · simp only [if_neg h, List.mem_append, List.mem_singleton, List.mem_cons]
      tauto

theorem mem_dedupKeepFirst {α} [DecidableEq α] (l : List α) (x : α) :
    x ∈ dedupKeepFirst l ↔ x ∈ l := by
  unfold dedupKeepFirst
  rw [mem_dedup_aux]
  simp

theorem nodup_dedup_aux {α} [DecidableEq α] (l : List α) :
    ∀ acc : List α, acc.Nodup →
      (l.foldl (fun acc x => if x ∈ acc then acc else acc ++ [x]) acc).Nodup := by
  induction l with
  | nil => exact fun acc h => h
  | cons a l ih =>
    intro acc hacc
    simp only [List.foldl_cons]
    by_cases h : a ∈ acc
    · simpa [if_pos h] using ih acc hacc
    · refine ih _ ?_
      rw [if_neg h]
      simpa [List.nodup_append] using ⟨hacc, h⟩

theorem nodup_dedupKeepFirst {α} [DecidableEq α] (l : List α) :
    (dedupKeepFirst l).Nodup :=
  nodup_dedup_aux l [] List.nodup_nil

theorem one_lt_length_iff_two_distinct {α} [DecidableEq α] (l : List α) :
    1 < (dedupKeepFirst l).length ↔ ∃ a ∈ l, ∃ b ∈ l, a ≠ b := by
  constructor
  · intro h
    match hd : dedupKeepFirst l with
    | [] => rw [hd] at h; simp at h
    | [x] => rw [hd] at h; simp at h
    | a :: b :: rest =>
      have hmem : ∀ y ∈ dedupKeepFirst l, y ∈ l := fun y hy =>
        (mem_dedupKeepFirst l y).mp hy
      have hnd := nodup_dedupKeepFirst l
      rw [hd] at hnd
      have hab : a ≠ b := by
        intro hEq
        subst hEq
        simp [List.nodup_cons] at hnd
      exact ⟨a, hmem a (by rw [hd]; simp), b, hmem b (by rw [hd]; simp), hab⟩
  · rintro ⟨a, ha, b, hb, hab⟩
    have ha' := (mem_dedupKeepFirst l a).mpr ha
    have hb' := (mem_dedupKeepFirst l b).mpr hb
    match hd : dedupKeepFirst l with
    | [] => rw [hd] at ha'; simp at ha'
    | [x] =>
      rw [hd] at ha' hb'
      simp at ha' hb'
      exact absurd (ha'.trans hb'.symm) hab
    | x :: y :: rest => simp

theorem two_distinct_length {α} {l : List α} {a b : α}
    (ha : a ∈ l) (hb : b ∈ l) (hab : a ≠ b) : 1 < l.length := by
  match l with
  | [] => simp at ha
  | [x] =>
    simp at ha hb
    exact absurd (ha.trans hb.symm) hab
  | x :: y :: rest => simp

/-! ## C1 — duration-contradiction detection -/

/-- Claim C1, corrected.  The detector scans the serialized brief text only
for seconds-form duration mentions (`N second`/`N sec`/`N s`); it emits
exactly one duration-contradiction conflict precisely when those mentions
carry more than one distinct numeric value, and never more than one:
(1) for every text, exactly one conflict is emitted iff two duration mentions
with different values are found, (2) never more than one conflict, and the
two behaviours the spec demands on its own examples hold: (3) a brief whose
text contains `30 seconds` and `60 seconds` yields exactly one conflict,
(4) a brief with `30 seconds` twice yields none.  (Minute-form mentions,
which the claim also requires to be scanned, are not: see the
counterexample.) -/
theorem C1_duration_conflicts_seconds_only :
    (∀ t : JStr,
      ((durationConflicts t).length = 1
        ↔ ∃ a ∈ scanSeconds t, ∃ b ∈ scanSeconds t, a ≠ b)
      ∧ (durationConflicts t).length ≤ 1)
    ∧ (durationConflicts (briefText
        [("details".data, .str "clip A 30 seconds, clip B 60 seconds".data)])).length = 1
    ∧ (durationConflicts (briefText
        [("details".data, .str "30 seconds intro and 30 seconds outro".data)])).length = 0 := by
  refine ⟨fun t => ⟨?_, ?_⟩, by decide, by decide⟩
  · unfold durationConflicts
    by_cases h1 : 1 < (scanSeconds t).length
    · simp only [if_pos h1]
      by_cases h2 : 1 < (dedupKeepFirst (scanSeconds t)).length
      · simp only [if_pos h2, List.length_singleton, true_iff]
        exact (one_lt_length_iff_two_distinct _).mp h2
      · simp only [if_neg h2, List.length_nil]
        constructor
        · omega
        · intro hex
          exact absurd ((one_lt_length_iff_two_distinct _).mpr hex) h2
    · simp only [if_neg h1, List.length_nil]
      constructor
      · omega
      · rintro ⟨a, ha, b, hb, hab⟩
        exact absurd (two_distinct_length ha hb hab) h1
  · unfold durationConflicts
    by_cases h1 : 1 < (scanSeconds t).length
    · simp only [if_pos h1]
      by_cases h2 : 1 < (dedupKeepFirst (scanSeconds t)).length
      · simp [if_pos h2]
      · simp [if_neg h2]
    · simp [if_neg h1]

/-- Counterexample to claim C1 as stated: a brief whose text carries two
distinct minute-form duration mentions (`5 min` and `10 min`, recognised by
the spec-modelled minute scan) for which the detector emits no
duration-contradiction conflict at all, although the claim requires exactly
one. -/
theorem C1_counterexample_minutes_not_scanned :
    minuteMentions (briefText
      [("details".data, .str "a 5 min video and a 10 min cut".data)]) = [5, 10]
    ∧ durationConflicts (briefText
      [("details".data, .str "a 5 min video and a 10 min cut".data)]) = [] := by
  exact ⟨by decide, by decide⟩

/-- Witness for C1: the general characterisation applied to the spec's own
"30 seconds"/"60 seconds" example. -/
theorem C1_witness :
    (durationConflicts (briefText
      [("details".data, .str "clip A 30 seconds, clip B 60 seconds".data)])).length = 1 :=
  ((C1_duration_conflicts_seconds_only.1 _).1).mpr
    ⟨30, by decide, 60, by decide, by decide⟩

/-! ## C2 — conflicts carry recommendations and subjective judgments -/

/-- Claim C2 is contradicted by the code: `detectConflicts` attaches an
opinionated `recommendation` to every conflict it emits, and
`detectBudgetConflicts` emits a subjective budget-adequacy judgment.  At the
urgent multi-stage brief the single emitted conflict carries the
recommendation `Urgent client conversation needed: ...`; at the
generous-budget brief the single emitted conflict is the subjective
`... budget seems generous` judgment, with its own recommendation. -/
theorem C2_conflicts_carry_recommendations :
    ((detectConflicts (fun _ => none)
        [("Raw Brief".data, .str "urgent photoshoot with editing and motion graphics".data)]
        "Pizza".data).map (fun c => c.recommendation)
      = ["Urgent client conversation needed: Either extend timeline or reduce scope".data])
    ∧ ((detectConflicts (fun _ => none)
        [("details".data, .str "£6,000 budget for a simple logo".data)]
        "Cup of Tea".data).map (fun c => c.description)
      = ["Simple Cup of Tea project with £6000 budget seems generous".data])
    ∧ ((detectConflicts (fun _ => none)
        [("details".data, .str "£6,000 budget for a simple logo".data)]
        "Cup of Tea".data).map (fun c => c.recommendation)
      = ["Confirm scope - client may expect more than currently specified".data]) := by
  exact ⟨by decide, by decide, by decide⟩

/-! ## C3 — the self-correction loop never re-attempts creation -/

/-- Claim C3 is contradicted by the code: when every creation attempt would
fail validation, the loop makes exactly one `API-post-page` call and exactly
one correction round-trip, then terminates as a failure with `attempts = 1` —
the corrected properties are never re-submitted, because the correction step
assigns to the `const` binding `notionProperties` and the resulting
`TypeError` breaks the loop.  When the first attempt succeeds, no correction
happens. -/
theorem C3_correction_never_reattempted :
    createPageLoop (fun _ => false)
      = { createCalls := 1, correctionCalls := 1,
          succeeded := false, attemptsReported := 1 }
    ∧ createPageLoop (fun _ => true)
      = { createCalls := 1, correctionCalls := 0,
          succeeded := true, attemptsReported := 1 } := by
  exact ⟨by decide, by decide⟩

/-! ## C4 — field resolution is naming-convention independent -/

/-- Claim C4, confirmed.  For every value `v`, resolving `due_date` against
the one-entry brief keyed `Due Date` and against the one-entry brief keyed
`due date` both return `v`. -/
theorem C4_due_date_variants_agree (v : JValue) :
    getValueFromBrief "due_date".data [("Due Date".data, v)] = v
    ∧ getValueFromBrief "due_date".data [("due date".data, v)] = v := by
  exact ⟨rfl, rfl⟩

/-! ## C8 — when the resolver returns null -/

theorem isNull_false_iff (v : JValue) : v.isNull = false ↔ v ≠ JValue.null := by
  cases v <;> simp [JValue.isNull]

theorem lookupJS_stored {k : JStr} {b : Brief} {v : JValue}
    (h : lookupJS k b = some v) : ∃ kv ∈ b, kv.2 = v := by
  obtain ⟨kv, hkv, hf⟩ := firstHit_eq_some h
  refine ⟨kv, hkv, ?_⟩
  by_cases hk : kv.1 = k
  · simpa [hk] using hf
  · simp [hk] at hf

theorem C8_helper_fuzzy_stored {nv : JStr} {b : Brief} {v : JValue}
    (h : firstHit b (fun kv => if fuzzyHit nv kv.1 then some kv.2 else none)
          = some v) : ∃ kv ∈ b, kv.2 = v := by
  obtain ⟨kv, hkv, hf⟩ := firstHit_eq_some h
  refine ⟨kv, hkv, ?_⟩
  by_cases hk : fuzzyHit nv kv.1 = true
  · simpa [hk] using hf
  · simp [hk] at hf

theorem C8_helper_sem_stored {varName : JStr} {b : Brief} {v : JValue}
    (h : firstHit semanticMappings (fun ca =>
          if semClean varName = stripSep ca.1 then
            firstHit ca.2 (fun al =>
              firstHit b (fun kv =>
                if normalizeForComparison kv.1 = normalizeForComparison al
                then some kv.2 else none))
          else none) = some v) : ∃ kv ∈ b, kv.2 = v := by
  obtain ⟨ca, _, hca⟩ := firstHit_eq_some h
  by_cases hg : semClean varName = stripSep ca.1
  · rw [if_pos hg] at hca
    obtain ⟨al, _, hal⟩ := firstHit_eq_some hca
    obtain ⟨kv, hkv, hf⟩ := firstHit_eq_some hal
    refine ⟨kv, hkv, ?_⟩
    by_cases hk : normalizeForComparison kv.1 = normalizeForComparison al
    · simpa [hk] using hf
    · simp [hk] at hf
  · simp [hg] at hca

theorem any_false {l : List α} {p : α → Bool} (h : l.any p = false) :
    ∀ x ∈ l, p x = false := by
  intro x hx
  rcases hp : p x
  · rfl
  · exact absurd (List.any_eq_true.mpr ⟨x, hx, hp⟩) (by simp [h])

theorem any_false_of {l : List α} {p : α → Bool} (h : ∀ x ∈ l, p x = false) :
    l.any p = false := by
  rcases ha : l.any p
  · rfl
  · obtain ⟨x, hx, hp⟩ := List.any_eq_true.mp ha
    rw [h x hx] at hp
    cases hp

/-- Claim C8, corrected for briefs that store no literal `null` values: the
resolver returns null exactly when no key matches by exact lookup, by a
naming-convention rewrite, by normalized-character equality, by normalized
substring containment with similarity above `0.7`, or via the semantic-alias
table.  (Termination without exceptions holds by construction: the embedding
is a total function.  A brief that stores `null` under a matching key breaks
the equivalence — see the counterexample.) -/
theorem C8_resolver_null_iff (varName : JStr) (b : Brief)
    (hb : nullFreeTop b = true) :
    getValueFromBrief varName b = JValue.null ↔ matchesSomeStage varName b = false := by
  have hstored : ∀ kv ∈ b, kv.2 ≠ JValue.null := by
    intro kv hkv hEq
    have hall := List.all_eq_true.mp hb kv hkv
    rw [hEq] at hall
    simp [JValue.isNull] at hall
  constructor
  · intro h
    unfold getValueFromBrief at h
    rcases h1 : lookupJS varName b with _ | v
    case some =>
      simp only [h1] at h
      obtain ⟨kv, hkv, hv⟩ := lookupJS_stored h1
      exact absurd (hv.trans h) (hstored kv hkv)
    simp only [h1] at h
    rcases h2 : firstHit (variationsOf varName) (fun w => lookupJS w b) with _ | v
    case some =>
      simp only [h2] at h
      obtain ⟨w, _, hw⟩ := firstHit_eq_some h2
      obtain ⟨kv, hkv, hv⟩ := lookupJS_stored hw
      exact absurd (hv.trans h) (hstored kv hkv)
    simp only [h2] at h
    rcases h3 : firstHit b (fun kv =>
        if fuzzyHit (normalizeForComparison varName) kv.1 then some kv.2 else none)
      with _ | v
    case some =>
      simp only [h3] at h
      obtain ⟨kv, hkv, hv⟩ := C8_helper_fuzzy_stored h3
      exact absurd (hv.trans h) (hstored kv hkv)
    simp only [h3] at h
    rcases h4 : firstHit semanticMappings (fun ca =>
        if semClean varName = stripSep ca.1 then
          firstHit ca.2 (fun al =>
            firstHit b (fun kv =>
              if normalizeForComparison kv.1 = normalizeForComparison al
              then some kv.2 else none))
        else none) with _ | v
    case some =>
      simp only [h4] at h
      obtain ⟨kv, hkv, hv⟩ := C8_helper_sem_stored h4
      exact absurd (hv.trans h) (hstored kv hkv)
    -- all four stages fail: every claim-side component is false
    have hv1 : ∀ w ∈ variationsOf varName, lookupJS w b = none :=
      (firstHit_eq_none_iff _ _).mp h2
    have hv3 : ∀ kv ∈ b, fuzzyHit (normalizeForComparison varName) kv.1 = false := by
      intro kv hkv
      have hthis := (firstHit_eq_none_iff _ _).mp h3 kv hkv
      rcases hf : fuzzyHit (normalizeForComparison varName) kv.1
      · rfl
      · rw [if_pos hf] at hthis
        cases hthis
    simp only [matchesSomeStage, Bool.or_eq_false_iff]
    refine ⟨⟨⟨⟨?_, ?_⟩, ?_⟩, ?_⟩, ?_⟩
    · simp [h1]
    · exact any_false_of (fun w hw => by simp [hv1 w hw])
    · refine any_false_of (fun kv hkv => ?_)
      have hthis := hv3 kv hkv
      unfold fuzzyHit at hthis
      simp only [Bool.or_eq_false_iff] at hthis
      simpa using hthis.1
    · refine any_false_of (fun kv hkv => ?_)
      have hthis := hv3 kv hkv
      unfold fuzzyHit at hthis
      simp only [Bool.or_eq_false_iff] at hthis
      simpa using hthis.2
    · refine any_false_of (fun ca hca => ?_)
      have h5 := (firstHit_eq_none_iff _ _).mp h4 ca hca
      by_cases hg : semClean varName = stripSep ca.1
      · rw [if_pos hg] at h5
        have hals := (firstHit_eq_none_iff _ _).mp h5
        simp only [Bool.and_eq_false_iff]
        right
        refine any_false_of (fun al hal => ?_)
        have hkvs := (firstHit_eq_none_iff _ _).mp (hals al hal)
        refine any_false_of (fun kv hkv => ?_)
        have hthis := hkvs kv hkv
        by_cases hk : normalizeForComparison kv.1 = normalizeForComparison al
        · rw [if_pos hk] at hthis
          cases hthis
        · simpa using hk
      · simp only [Bool.and_eq_false_iff]
        left
        simpa using hg
  · intro h
    simp only [matchesSomeStage, Bool.or_eq_false_iff] at h
    obtain ⟨⟨⟨⟨hc1, hc2⟩, hc3⟩, hc4⟩, hc5⟩ := h
    have s1 : lookupJS varName b = none := by
      rcases hl : lookupJS varName b with _ | v
      · rfl
      · rw [hl] at hc1
        cases hc1
    have s2 : firstHit (variationsOf varName) (fun w => lookupJS w b) = none := by
      rw [firstHit_eq_none_iff]
      intro w hw
      have hthis := any_false hc2 w hw
      rcases hl : lookupJS w b with _ | v
      · rfl
      · rw [hl] at hthis
        cases hthis
    have s3 : firstHit b (fun kv =>
        if fuzzyHit (normalizeForComparison varName) kv.1 then some kv.2 else none)
        = none := by
      rw [firstHit_eq_none_iff]
      intro kv hkv
      have h3' := any_false hc3 kv hkv
      have h4' := any_false hc4 kv hkv
      have hf : fuzzyHit (normalizeForComparison varName) kv.1 = false := by
        unfold fuzzyHit
        simp only [Bool.or_eq_false_iff]
        exact ⟨by simpa using h3', by simpa using h4'⟩
      simp [hf]
    have s4 : firstHit semanticMappings (fun ca =>
        if semClean varName = stripSep ca.1 then
          firstHit ca.2 (fun al =>
            firstHit b (fun kv =>
              if normalizeForComparison kv.1 = normalizeForComparison al
              then some kv.2 else none))
        else none) = none := by
      rw [firstHit_eq_none_iff]
      intro ca hca
      have h5' := any_false hc5 ca hca
      by_cases hg : semClean varName = stripSep ca.1
      · rw [if_pos hg]
        simp only [Bool.and_eq_false_iff] at h5'
        rcases h5' with h5' | h5'
        · exfalso
          rw [hg] at h5'
          simp at h5'
        · rw [firstHit_eq_none_iff]
          intro al hal
          have hany := any_false h5' al hal
          rw [firstHit_eq_none_iff]
          intro kv hkv
          have hthis := any_false hany kv hkv
          by_cases hk : normalizeForComparison kv.1 = normalizeForComparison al
          · rw [hk] at hthis
            simp at hthis
          · simp [hk]
      · simp [hg]
    unfold getValueFromBrief
    simp only [s1, s2, s3, s4]

/-- Counterexample to claim C8 as stated: for the brief storing the literal
`null` under key `x`, the key `x` matches by exact lookup, yet the resolver
returns null. -/
theorem C8_counterexample_stored_null :
    getValueFromBrief "x".data [("x".data, JValue.null)] = JValue.null
    ∧ matchesSomeStage "x".data [("x".data, JValue.null)] = true := by
  exact ⟨rfl, by decide⟩

/-- Witness for C8: on a null-free brief without any matching key the
resolver returns null. -/
theorem C8_witness :
    nullFreeTop [("a".data, JValue.str "1".data)] = true
    ∧ getValueFromBrief "zzz".data [("a".data, JValue.str "1".data)] = JValue.null :=
  ⟨by decide,
   (C8_resolver_null_iff "zzz".data [("a".data, JValue.str "1".data)]
     (by decide)).mpr (by decide)⟩

/-! ## C10 — placeholder replacement -/

theorem head_eq_of_head? {cs : List Char} {x : Char} (h : cs.head? = some x) :
    cs = x :: cs.tail := by
  cases cs with
  | nil => simp at h
  | cons c cs' =>
    simp only [List.head?_cons, Option.some.injEq] at h
    simp [h]

theorem closeScan_sound :
    ∀ cs nm k, closeScan cs = some (nm, k) →
      cs = nm ++ '}' :: '}' :: cs.drop k ∧ k = nm.length + 2 ∧ '\n' ∉ nm := by
  intro cs
  induction cs with
  | nil => intro nm k h; simp [closeScan] at h
  | cons c cs ih =>
    intro nm k h
    unfold closeScan at h
    by_cases h1 : c = '}' ∧ cs.head? = some '}'
    · rw [if_pos h1] at h
      simp only [Option.some.injEq, Prod.mk.injEq] at h
      obtain ⟨rfl, rfl⟩ := h
      refine ⟨?_, rfl, by simp⟩
      obtain ⟨rfl, hh⟩ := h1
      rw [head_eq_of_head? hh]
      simp
    · rw [if_neg h1] at h
      by_cases h2 : c = '\n'
      · rw [if_pos h2] at h
        cases h
      · rw [if_neg h2] at h
        rcases hc : closeScan cs with _ | ⟨nm', k'⟩
        · rw [hc] at h
          cases h
        · rw [hc] at h
          simp only [Option.some.injEq, Prod.mk.injEq] at h
          obtain ⟨rfl, rfl⟩ := h
          obtain ⟨hcs, hk', hnl⟩ := ih nm' k' hc
          refine ⟨?_, by simp [hk'], ?_⟩
          · conv_lhs => rw [hcs]
            simp
          · intro hmem
            rcases List.mem_cons.mp hmem with hmem | hmem
            · exact h2 hmem.symm
            · exact hnl hmem

theorem closeScan_complete :
    ∀ n s, '\n' ∉ n → closeScan (n ++ '}' :: '}' :: s) ≠ none := by
  intro n
  induction n with
  | nil =>
    intro s _
    simp [closeScan]
  | cons c n ih =>
    intro s hn
    have hc : ¬c = '\n' := fun h => hn (by simp [h])
    have hn' : '\n' ∉ n := fun h => hn (by simp [h])
    rw [List.cons_append]
    simp only [closeScan]
    by_cases h1 : c = '}' ∧ (n ++ '}' :: '}' :: s).head? = some '}'
    · rw [if_pos h1]
      simp
    · rw [if_neg h1, if_neg hc]
      rcases hcc : closeScan (n ++ '}' :: '}' :: s) with _ | ⟨nm, k⟩
      · exact absurd hcc (ih s hn')
      · simp

theorem replaceVarsGo_stable (b : Brief) :
    ∀ f1 f2 t, t.length ≤ f1 → t.length ≤ f2 →
      replaceVarsGo b f1 t = replaceVarsGo b f2 t := by
  intro f1
  induction f1 with
  | zero =>
    intro f2 t h1 _
    have : t = [] := List.length_eq_zero.mp (Nat.le_zero.mp h1)
    subst this
    cases f2 <;> simp [replaceVarsGo]
  | succ f1' ih =>
    intro f2 t h1 h2
    cases t with
    | nil => cases f2 <;> simp [replaceVarsGo]
    | cons c cs =>
      cases f2 with
      | zero => simp at h2
      | succ f2' =>
        simp only [replaceVarsGo]
        rcases hsc : (if c = '{' ∧ cs.head? = some '{' then closeScan cs.tail else none)
          with _ | ⟨nm, k⟩
        · simp only [List.length_cons] at h1 h2
          exact congrArg (c :: ·) (ih f2' cs (by omega) (by omega))
        · have hlen : (cs.tail.drop k).length ≤ cs.length := by
            have h3 : cs.tail.length ≤ cs.length := by cases cs <;> simp
            simp only [List.length_drop]
            omega
          simp only [List.length_cons] at h1 h2
          exact congrArg (renderResolved nm b ++ ·)
            (ih f2' (cs.tail.drop k) (by omega) (by omega))

theorem replaceVariables_cons (b : Brief) (c : Char) (cs : List Char) :
    replaceVariables b (c :: cs) =
      (match (if c = '{' ∧ cs.head? = some '{' then closeScan cs.tail else none) with
       | some (nm, k) =>
         renderResolved nm b ++ replaceVariables b (cs.tail.drop k)
       | none => c :: replaceVariables b cs) := by
  unfold replaceVariables
  simp only [List.length_cons, replaceVarsGo]
  rcases hsc : (if c = '{' ∧ cs.head? = some '{' then closeScan cs.tail else none)
    with _ | ⟨nm, k⟩
  · exact congrArg (c :: ·) (replaceVarsGo_stable b cs.length cs.length cs le_rfl le_rfl)
  · refine congrArg (renderResolved nm b ++ ·) ?_
    have hlen : (cs.tail.drop k).length ≤ cs.length := by
      have h3 : cs.tail.length ≤ cs.length := by cases cs <;> simp
      simp only [List.length_drop]
      omega
    exact replaceVarsGo_stable b cs.length (cs.tail.drop k).length (cs.tail.drop k)
      hlen le_rfl

theorem replace_findPh (b : Brief) :
    ∀ t, (findPh t = none → replaceVariables b t = t)
      ∧ (∀ p n s, findPh t = some (p, n, s) →
          replaceVariables b t = p ++ renderResolved n b ++ replaceVariables b s) := by
  intro t
  induction t with
  | nil =>
    refine ⟨fun _ => by simp [replaceVariables, replaceVarsGo], ?_⟩
    intro p n s h
    simp [findPh] at h
  | cons c cs ih =>
    rcases hsc : (if c = '{' ∧ cs.head? = some '{' then closeScan cs.tail else none)
      with _ | ⟨nm, k⟩
    · rcases hf : findPh cs with _ | ⟨⟨p', n', s'⟩⟩
      · constructor
        · intro _
          rw [replaceVariables_cons, hsc]
          simp [ih.1 hf]
        · intro p n s h
          unfold findPh at h
          rw [hsc, hf] at h
          cases h
      · constructor
        · intro h
          unfold findPh at h
          rw [hsc, hf] at h
          cases h
        · intro p n s h
          unfold findPh at h
          rw [hsc, hf] at h
          simp only [Option.some.injEq, Prod.mk.injEq] at h
          obtain ⟨rfl, rfl, rfl⟩ := h
          rw [replaceVariables_cons, hsc]
          simp [ih.2 p' n' s' hf]
    · constructor
      · intro h
        unfold findPh at h
        rw [hsc] at h
        cases h
      · intro p n s h
        unfold findPh at h
        rw [hsc] at h
        simp only [Option.some.injEq, Prod.mk.injEq] at h
        obtain ⟨rfl, rfl, rfl⟩ := h
        rw [replaceVariables_cons, hsc]
        simp

theorem findPh_sound :
    ∀ t p n s, findPh t = some (p, n, s) →
      t = p ++ '{' :: '{' :: (n ++ '}' :: '}' :: s) ∧ '\n' ∉ n := by
  intro t
  induction t with
  | nil => intro p n s h; simp [findPh] at h
  | cons c cs ih =>
    intro p n s h
    unfold findPh at h
    rcases hsc : (if c = '{' ∧ cs.head? = some '{' then closeScan cs.tail else none)
      with _ | ⟨nm, k⟩
    · rw [hsc] at h
      rcases hf : findPh cs with _ | ⟨⟨p', n', s'⟩⟩
      · rw [hf] at h; cases h
      · rw [hf] at h
        simp only [Option.some.injEq, Prod.mk.injEq] at h
        obtain ⟨rfl, rfl, rfl⟩ := h
        obtain ⟨hcs, hnl⟩ := ih p' n' s' hf
        exact ⟨by rw [hcs]; simp, hnl⟩
    · rw [hsc] at h
      simp only [Option.some.injEq, Prod.mk.injEq] at h
      obtain ⟨rfl, rfl, rfl⟩ := h
      by_cases hg : c = '{' ∧ cs.head? = some '{'
      · rw [if_pos hg] at hsc
        obtain ⟨hc, hh⟩ := hg
        obtain ⟨htail, _, hnl⟩ := closeScan_sound cs.tail nm k hsc
        subst hc
        refine ⟨?_, hnl⟩
        conv_lhs => rw [head_eq_of_head? hh, htail]
        simp
      · rw [if_neg hg] at hsc
        cases hsc

theorem findPh_complete :
    ∀ p n s t, '\n' ∉ n → t = p ++ '{' :: '{' :: (n ++ '}' :: '}' :: s) →
      findPh t ≠ none := by
  intro p
  induction p with
  | nil =>
    intro n s t hn ht
    subst ht
    rw [List.nil_append]
    simp only [findPh]
    rw [if_pos (by simp)]
    rcases hcc : closeScan (('{' :: (n ++ '}' :: '}' :: s)).tail) with _ | ⟨nm, k⟩
    · rw [List.tail_cons] at hcc
      exact absurd hcc (closeScan_complete n s hn)
    · simp
  | cons c p' ih =>
    intro n s t hn ht
    subst ht
    rw [List.cons_append]
    simp only [findPh]
    rcases hsc : (if c = '{' ∧ (p' ++ '{' :: '{' :: (n ++ '}' :: '}' :: s)).head? = some '{'
        then closeScan (p' ++ '{' :: '{' :: (n ++ '}' :: '}' :: s)).tail else none)
      with _ | ⟨nm, k⟩
    · rcases hf : findPh (p' ++ '{' :: '{' :: (n ++ '}' :: '}' :: s)) with _ | ⟨⟨p2, n2, s2⟩⟩
      · exact absurd hf (ih n s _ hn rfl)
      · simp
    · simp

/-- Claim C10, corrected.  `replaceVariables` rewrites the text by the
leftmost-match discipline of the placeholder pattern: where `findPh` locates
a placeholder, the output is the prefix, then the rendering of the resolved
name, then the rewritten suffix; where no placeholder matches, the text is
returned unchanged — and `findPh` succeeds exactly on texts containing a
`\x7b\x7b...\x7d\x7d` token with a newline-free interior.  Resolved values
render as the claim states: arrays joined with `', '` (null elements empty),
objects JSON-serialized, strings verbatim, unresolved names as the literal
bracketed `[name]`.  A placeholder whose interior spans a newline is not
matched and survives verbatim (see the counterexample). -/
theorem C10_replace_variables (t : JStr) (b : Brief) :
    (∀ p n s, findPh t = some (p, n, s) →
        replaceVariables b t = p ++ renderResolved n b ++ replaceVariables b s)
    ∧ (findPh t = none → replaceVariables b t = t)
    ∧ (findPh t = none ↔ ¬ hasPh t)
    ∧ (∀ n, getValueFromBrief (jsTrim n) b = JValue.null →
        renderResolved n b = '[' :: (n ++ [']']))
    ∧ (∀ n xs, getValueFromBrief (jsTrim n) b = JValue.arr xs →
        renderResolved n b
          = joinWith ", ".data (xs.map (fun e => if e.isNull then [] else jsToString e)))
    ∧ (∀ n fs, getValueFromBrief (jsTrim n) b = JValue.obj fs →
        renderResolved n b = jsonStringify (.obj fs))
    ∧ (∀ n s', getValueFromBrief (jsTrim n) b = JValue.str s' →
        renderResolved n b = s') := by
  refine ⟨(replace_findPh b t).2, (replace_findPh b t).1, ⟨?_, ?_⟩, ?_, ?_, ?_, ?_⟩
  · intro h hph
    obtain ⟨p, n, s, ht, hn⟩ := hph
    exact findPh_complete p n s t hn ht h
  · intro h
    rcases hf : findPh t with _ | ⟨⟨p, n, s⟩⟩
    · rfl
    · obtain ⟨ht, hn⟩ := findPh_sound t p n s hf
      exact absurd ⟨p, n, s, ht, hn⟩ h
  · intro n h
    unfold renderResolved
    rw [h]
  · intro n xs h
    unfold renderResolved
    rw [h]
  · intro n fs h
    unfold renderResolved
    rw [h]
  · intro n s' h
    unfold renderResolved
    rw [h]
    rfl

/-- Counterexample to claim C10 as stated: the template text consisting of
the single token `\x7b\x7ba\nb\x7d\x7d` contains a placeholder occurrence
(with the name spanning a newline), yet the output equals the input — the
token is not replaced by `[a\nb]` and survives verbatim into the produced
text, because the pattern's lazy interior cannot cross a newline. -/
theorem C10_counterexample_newline_survives :
    replaceVariables [] ('{' :: '{' :: 'a' :: '\n' :: 'b' :: '}' :: '}' :: [])
      = '{' :: '{' :: 'a' :: '\n' :: 'b' :: '}' :: '}' :: []
    ∧ replaceVariables [] ('{' :: '{' :: 'a' :: '\n' :: 'b' :: '}' :: '}' :: [])
      ≠ '[' :: 'a' :: '\n' :: 'b' :: ']' :: [] := by
  exact ⟨by decide, by decide⟩

/-- Witness for C10: the characterisation applied to a concrete one-line
placeholder that resolves in the brief. -/
theorem C10_witness :
    replaceVariables [("x".data, JValue.str "v".data)]
        ('{' :: '{' :: 'x' :: '}' :: '}' :: ' ' :: 'o' :: 'k' :: [])
      = [] ++ renderResolved ['x'] [("x".data, JValue.str "v".data)]
          ++ replaceVariables [("x".data, JValue.str "v".data)] (' ' :: 'o' :: 'k' :: []) :=
  (C10_replace_variables _ _).1 [] ['x'] (' ' :: 'o' :: 'k' :: []) (by decide)

/-! ## Parser invariants (C5, C6, C7) -/

theorem parseBlocks_inv (Φ : Section → Prop)
    (hhead : ∀ blk : NBlock, isBlank blk.text = false → isHeadingType blk.type = true →
      Φ (mkHeadingSection blk))
    (hsopNew : ∀ blk : NBlock, isBlank blk.text = false → blk.type = "toggle".data →
      Φ (mkSopSection (toggleSop blk.text)))
    (hsopUpd : ∀ (c : Section) (blk : NBlock), isBlank blk.text = false →
      blk.type = "toggle".data → Φ c → Φ { c with sops := c.sops ++ [toggleSop blk.text] })
    (hcbNew : ∀ blk : NBlock, isBlank blk.text = false → isHeadingType blk.type = false →
      ¬blk.type = "toggle".data → Φ (mkRootSection (mkContentBlock blk)))
    (hcbUpd : ∀ (c : Section) (blk : NBlock), isBlank blk.text = false →
      isHeadingType blk.type = false → ¬blk.type = "toggle".data → Φ c →
      Φ { c with content := c.content ++ [mkContentBlock blk] }) :
    ∀ (bs : List NBlock) (st : List Section × Option Section),
      (∀ s ∈ st.1, Φ s) → (∀ s ∈ st.2.toList, Φ s) →
      (∀ s ∈ (parseBlocks bs st).1, Φ s) ∧ (∀ s ∈ (parseBlocks bs st).2.toList, Φ s) := by
  intro bs
  induction bs with
  | nil =>
    intro st h1 h2
    exact ⟨h1, h2⟩
  | cons b bs ih =>
    rintro ⟨d, cur⟩ h1 h2
    refine ih (parseStep (d, cur) b) ?_ ?_ |>.imp id id
    all_goals
      unfold parseStep
      by_cases hb : isBlank b.text = true
    · simp only [if_pos hb]
      exact h1
    · have hb' : isBlank b.text = false := by
        revert hb
        cases isBlank b.text <;> simp
      rw [if_neg hb]
      by_cases hh : isHeadingType b.type = true
      · rw [if_pos hh]
        exact fun s hs => (List.mem_append.mp hs).elim (h1 s) (h2 s)
      · rw [if_neg hh]
        by_cases ht : b.type = "toggle".data
        · rw [if_pos ht]
          cases cur <;> exact h1
        · rw [if_neg ht]
          cases cur <;> exact h1
    · simp only [if_pos hb]
      exact h2
    · have hb' : isBlank b.text = false := by
        revert hb
        cases isBlank b.text <;> simp
      have hh' : ∀ v : Bool, isHeadingType b.type = v → ¬(isHeadingType b.type = true) →
          isHeadingType b.type = false := by
        intro v _ hnot
        revert hnot
        cases isHeadingType b.type <;> simp
      rw [if_neg hb]
      by_cases hh : isHeadingType b.type = true
      · rw [if_pos hh]
        intro s hs
        simp only [Option.toList_some, List.mem_singleton] at hs
        subst hs
        exact hhead b hb' hh
      · rw [if_neg hh]
        by_cases ht : b.type = "toggle".data
        · rw [if_pos ht]
          cases cur with
          | none =>
            intro s hs
            simp only [Option.toList_some, List.mem_singleton] at hs
            subst hs
            exact hsopNew b hb' ht
          | some c =>
            intro s hs
            simp only [Option.toList_some, List.mem_singleton] at hs
            subst hs
            exact hsopUpd c b hb' ht (h2 c (by simp))
        · rw [if_neg ht]
          cases cur with
          | none =>
            intro s hs
            simp only [Option.toList_some, List.mem_singleton] at hs
            subst hs
            exact hcbNew b hb' (hh' _ rfl hh) ht
          | some c =>
            intro s hs
            simp only [Option.toList_some, List.mem_singleton] at hs
            subst hs
            exact hcbUpd c b hb' (hh' _ rfl hh) ht (h2 c (by simp))

theorem isHeadingType_shape {t : JStr} (ht : isHeadingType t = true) :
    t = "heading_1".data ∨ t = "heading_2".data ∨ t = "heading_3".data := by
  unfold isHeadingType at ht
  simp only [Bool.or_eq_true, decide_eq_true_eq] at ht
  tauto

theorem isBlank_false_ne_nil {t : JStr} (h : isBlank t = false) : t ≠ [] := by
  intro hEq
  subst hEq
  exact absurd h (by decide)

theorem parse_sections_wf (bs : List NBlock) :
    ∀ s ∈ (parseTemplate bs).sections,
      s.level ≠ [] ∧ s.title ≠ [] ∧ s.level ≠ "toggle".data
      ∧ ∀ cb ∈ s.content, cb.blockType ≠ "toggle".data := by
  have hmain := parseBlocks_inv
    (fun s => s.level ≠ [] ∧ s.title ≠ [] ∧ s.level ≠ "toggle".data
      ∧ ∀ cb ∈ s.content, cb.blockType ≠ "toggle".data)
    (fun blk hb hh => by
      obtain ⟨h1, h2⟩ : blk.type ≠ [] ∧ blk.type ≠ "toggle".data := by
        rcases isHeadingType_shape hh with h | h | h <;> rw [h] <;>
          exact ⟨by decide, by decide⟩
      exact ⟨h1, isBlank_false_ne_nil hb, h2, by simp [mkHeadingSection]⟩)
    (fun blk _ _ => by
      refine ⟨?_, ?_, ?_, ?_⟩
      · show "instruction".data ≠ []
        decide
      · show "Process Instruction".data ≠ []
        decide
      · show "instruction".data ≠ "toggle".data
        decide
      · show ∀ cb ∈ ([] : List ContentBlock), cb.blockType ≠ "toggle".data
        simp)
    (fun c blk _ _ hc => by
      simpa using hc)
    (fun blk hb hh ht => by
      refine ⟨?_, ?_, ?_, ?_⟩
      · show "root".data ≠ []
        decide
      · show "Template Content".data ≠ []
        decide
      · show "root".data ≠ "toggle".data
        decide
      intro cb hcb
      simp only [mkRootSection, List.mem_singleton] at hcb
      subst hcb
      simpa [mkContentBlock] using ht)
    (fun c blk hb hh ht hc => by
      refine ⟨hc.1, hc.2.1, hc.2.2.1, ?_⟩
      intro cb hcb
      simp only [List.mem_append, List.mem_singleton] at hcb
      rcases hcb with hcb | hcb
      · exact hc.2.2.2 cb hcb
      · subst hcb
        simpa [mkContentBlock] using ht)
    bs ([], none) (by simp) (by simp)
  intro s hs
  unfold parseTemplate at hs
  simp only at hs
  rcases List.mem_append.mp hs with hs | hs
  · exact hmain.1 s hs
  · exact hmain.2 s hs

/-- Claim C5, confirmed.  For every block list, brief and parsed section:
`applyTemplate` is the concatenation of the per-section block lists; a
conditional section none of whose variables (from the heading or any content
block) resolves to a non-null, non-undefined, non-empty value contributes no
blocks at all — neither heading nor content; and a section not marked
conditional always contributes at least its heading block, so it is never
skipped as a whole. -/
theorem C5_conditional_section_skipping (bs : List NBlock) (brief : Brief)
    (s : Section) (hs : s ∈ (parseTemplate bs).sections) :
    applyTemplate (parseTemplate bs) brief
      = ((parseTemplate bs).sections).flatMap (applySection brief)
    ∧ (s.isConditional = true → sectionHasData s brief = false →
        applySection brief s = [])
    ∧ (s.isConditional = false → applySection brief s ≠ []) := by
  refine ⟨rfl, ?_, ?_⟩
  · intro hcond hdata
    unfold applySection
    rw [hcond, hdata]
    simp
  · intro hcond
    obtain ⟨hlevel, htitle, _, _⟩ := parse_sections_wf bs s hs
    unfold applySection
    rw [hcond]
    simp only [Bool.false_and, Bool.false_eq_true, if_false]
    rw [if_pos ⟨by simpa using hlevel, by simpa using htitle⟩]
    simp

/-- Witness for C5: a conditional heading section (`(optional)`) with no data
in the empty brief contributes nothing. -/
theorem C5_witness :
    (⟨"section".data, "heading_2".data, "Budget (optional)".data, [], [], [], true⟩ : Section)
        ∈ (parseTemplate [⟨"heading_2".data, "Budget (optional)".data⟩]).sections
    ∧ applySection []
        ⟨"section".data, "heading_2".data, "Budget (optional)".data, [], [], [], true⟩ = [] :=
  ⟨by decide,
   (C5_conditional_section_skipping
      [⟨"heading_2".data, "Budget (optional)".data⟩] [] _ (by decide)).2.1 rfl (by decide)⟩

/-! ## C6 — toggles become instructions, never output -/

theorem createParagraph_type {x : JStr} {ob : OutBlock}
    (h : createParagraph x = some ob) : ob.type = "paragraph".data := by
  unfold createParagraph at h
  split_ifs at h
  simp only [Option.some.injEq] at h
  subst h
  rfl

theorem createContentBlock_not_toggle {cb : ContentBlock} {brief : Brief} {ob : OutBlock}
    (hcb : cb.blockType ≠ "toggle".data)
    (h : createContentBlock cb brief = some ob) : ob.type ≠ "toggle".data := by
  unfold createContentBlock at h
  by_cases h1 : cb.blockType = "paragraph".data
  · rw [if_pos h1] at h
    rw [createParagraph_type h]
    decide
  rw [if_neg h1] at h
  by_cases h2 : cb.blockType = "heading_1".data ∨ cb.blockType = "heading_2".data
      ∨ cb.blockType = "heading_3".data
  · rw [if_pos h2] at h
    simp only [Option.some.injEq] at h
    subst h
    simpa using hcb
  rw [if_neg h2] at h
  by_cases h3 : cb.blockType = "callout".data
  · rw [if_pos h3] at h
    simp only [Option.some.injEq] at h
    subst h
    show ("callout".data : JStr) ≠ "toggle".data
    decide
  rw [if_neg h3] at h
  by_cases h4 : cb.blockType = "quote".data
  · rw [if_pos h4] at h
    simp only [Option.some.injEq] at h
    subst h
    show ("quote".data : JStr) ≠ "toggle".data
    decide
  rw [if_neg h4] at h
  by_cases h5 : cb.blockType = "bulleted_list_item".data
  · rw [if_pos h5] at h
    simp only [Option.some.injEq] at h
    subst h
    show ("bulleted_list_item".data : JStr) ≠ "toggle".data
    decide
  rw [if_neg h5] at h
  by_cases h6 : cb.blockType = "numbered_list_item".data
  · rw [if_pos h6] at h
    simp only [Option.some.injEq] at h
    subst h
    show ("numbered_list_item".data : JStr) ≠ "toggle".data
    decide
  rw [if_neg h6] at h
  by_cases h7 : cb.blockType = "toggle".data
  · exact absurd h7 hcb
  rw [if_neg h7] at h
  by_cases h8 : cb.blockType = "divider".data
  · rw [if_pos h8] at h
    simp only [Option.some.injEq] at h
    subst h
    show ("divider".data : JStr) ≠ "toggle".data
    decide
  rw [if_neg h8] at h
  rw [createParagraph_type h]
  decide

theorem sectionSopsTotal_append (xs ys : List Section) :
    sectionSopsTotal (xs ++ ys) = sectionSopsTotal xs + sectionSopsTotal ys := by
  simp [sectionSopsTotal]

theorem isHeadingType_ne_toggle {t : JStr} (hh : isHeadingType t = true) :
    (t == "toggle".data) = false := by
  rcases isHeadingType_shape hh with h | h | h <;> rw [h] <;> decide

theorem parseBlocks_sops :
    ∀ (bs : List NBlock) (st : List Section × Option Section),
      sectionSopsTotal ((parseBlocks bs st).1 ++ (parseBlocks bs st).2.toList)
        = sectionSopsTotal (st.1 ++ st.2.toList)
          + (bs.filter (fun b => b.type == "toggle".data && !isBlank b.text)).length := by
  intro bs
  induction bs with
  | nil =>
    intro st
    simp [parseBlocks]
  | cons b bs ih =>
    rintro ⟨d, cur⟩
    have hrec : parseBlocks (b :: bs) (d, cur) = parseBlocks bs (parseStep (d, cur) b) := rfl
    rw [hrec, ih (parseStep (d, cur) b)]
    have hstep : sectionSopsTotal ((parseStep (d, cur) b).1 ++ (parseStep (d, cur) b).2.toList)
        = sectionSopsTotal (d ++ cur.toList)
          + (if b.type == "toggle".data && !isBlank b.text then 1 else 0) := by
      unfold parseStep
      by_cases hb : isBlank b.text = true
      · simp [hb]
      · have hb' : isBlank b.text = false := by
          revert hb
          cases isBlank b.text <;> simp
        rw [if_neg hb]
        by_cases hh : isHeadingType b.type = true
        · rw [if_pos hh]
          simp [sectionSopsTotal_append, isHeadingType_ne_toggle hh,
            sectionSopsTotal, mkHeadingSection]
        · rw [if_neg hh]
          by_cases ht : b.type = "toggle".data
          · rw [if_pos ht]
            have htt : (b.type == "toggle".data) = true := by simp [ht]
            cases cur with
            | none =>
              simp [htt, hb', sectionSopsTotal, mkSopSection]
            | some c =>
              simp [htt, hb', sectionSopsTotal]
              omega
          · rw [if_neg ht]
            have htf : (b.type == "toggle".data) = false := by
              simpa using ht
            cases cur with
            | none =>
              simp [htf, sectionSopsTotal, mkRootSection]
            | some c =>
              simp [htf, sectionSopsTotal]
    rw [hstep, List.filter_cons]
    by_cases hcond : (b.type == "toggle".data && !isBlank b.text) = true
    · simp only [hcond, if_true, if_pos, List.length_cons]
      omega
    · have hcond' : (b.type == "toggle".data && !isBlank b.text) = false := by
        revert hcond
        cases (b.type == "toggle".data && !isBlank b.text) <;> simp
      simp only [hcond', if_false, Bool.false_eq_true]
      omega

/-- Claim C6, confirmed.  For every template block list: no content entry of
any parsed section carries the toggle block type; the number of
section-level process instructions equals the number of non-blank toggle
blocks in the template (every non-empty toggle is recorded as an instruction
of its enclosing — possibly implicitly created — section); and consequently
no block of toggle type produced from the parsed sections appears in
`applyTemplate`'s output. -/
theorem C6_toggles_never_forwarded (bs : List NBlock) (brief : Brief) :
    (∀ s ∈ (parseTemplate bs).sections, ∀ cb ∈ s.content, cb.blockType ≠ "toggle".data)
    ∧ sectionSopsTotal (parseTemplate bs).sections
        = (bs.filter (fun b => b.type == "toggle".data && !isBlank b.text)).length
    ∧ ∀ ob ∈ applyTemplate (parseTemplate bs) brief, ob.type ≠ "toggle".data := by
  refine ⟨fun s hs => (parse_sections_wf bs s hs).2.2.2, ?_, ?_⟩
  · have hgoal := parseBlocks_sops bs ([], none)
    unfold parseTemplate
    simp only
    rw [hgoal]
    simp [sectionSopsTotal]
  · intro ob hob
    unfold applyTemplate at hob
    rw [List.mem_flatMap] at hob
    obtain ⟨s, hs, hob⟩ := hob
    obtain ⟨_, _, hlvl, hcbs⟩ := parse_sections_wf bs s hs
    unfold applySection at hob
    by_cases hskip : (s.isConditional && !sectionHasData s brief) = true
    · rw [if_pos hskip] at hob
      simp at hob
    · rw [if_neg hskip] at hob
      rcases List.mem_append.mp hob with hob | hob
      · by_cases hhd : ¬s.level.isEmpty ∧ ¬s.title.isEmpty
        · rw [if_pos hhd] at hob
          simp only [List.mem_singleton] at hob
          subst hob
          exact hlvl
        · rw [if_neg hhd] at hob
          simp at hob
      · rw [List.mem_filterMap] at hob
        obtain ⟨cb, hcb, hf⟩ := hob
        have hne := hcbs cb hcb
        by_cases hcs : (cb.isConditional && !contentHasData cb brief) = true
        · rw [if_pos hcs] at hf
          cases hf
        · rw [if_neg hcs] at hf
          exact createContentBlock_not_toggle hne hf

/-- Witness for C6: in a template with one heading, one toggle and one
paragraph, one instruction is recorded and the paragraph output block is not
a toggle. -/
theorem C6_witness :
    sectionSopsTotal (parseTemplate
        [⟨"heading_2".data, "Overview".data⟩, ⟨"toggle".data, "Fill from brief".data⟩,
         ⟨"paragraph".data, "Hello".data⟩]).sections = 1
    ∧ (⟨"paragraph".data, "Hello".data⟩ : OutBlock).type ≠ "toggle".data :=
  ⟨((C6_toggles_never_forwarded
      [⟨"heading_2".data, "Overview".data⟩, ⟨"toggle".data, "Fill from brief".data⟩,
       ⟨"paragraph".data, "Hello".data⟩] []).2.1).trans (by decide),
   (C6_toggles_never_forwarded
      [⟨"heading_2".data, "Overview".data⟩, ⟨"toggle".data, "Fill from brief".data⟩,
       ⟨"paragraph".data, "Hello".data⟩] []).2.2
     ⟨"paragraph".data, "Hello".data⟩ (by decide)⟩

/-! ## C7 — block order, heading boundaries, implicit root section -/

theorem headingSel_append (xs ys : List Section) :
    headingSel (xs ++ ys) = headingSel xs ++ headingSel ys := by
  simp [headingSel]

theorem headingSel_singleton (c : Section) :
    headingSel [c]
      = if c.type == ("section".data : JStr) then [(c.level, c.title)] else [] := by
  simp only [headingSel, List.filter]
  cases h : c.type == ("section".data : JStr) <;> simp [h]

theorem headingSel_eq_of (c c' : Section) (hty : c'.type = c.type)
    (hlv : c'.level = c.level) (hti : c'.title = c.title) :
    headingSel [c'] = headingSel [c] := by
  rw [headingSel_singleton, headingSel_singleton, hty, hlv, hti]

theorem headingSel_sop (t : JStr) : headingSel [mkSopSection t] = [] := by
  rw [headingSel_singleton,
    show (mkSopSection t).type = ("sop_block".data : JStr) from rfl,
    if_neg (by decide)]

theorem headingSel_root (cb : ContentBlock) : headingSel [mkRootSection cb] = [] := by
  rw [headingSel_singleton,
    show (mkRootSection cb).type = ("content".data : JStr) from rfl,
    if_neg (by decide)]

theorem headingSel_heading (b : NBlock) :
    headingSel [mkHeadingSection b] = [(b.type, b.text)] := by
  rw [headingSel_singleton,
    show (mkHeadingSection b).type = ("section".data : JStr) from rfl,
    if_pos (by decide)]
  rfl

theorem parseBlocks_append :
    ∀ (xs ys : List NBlock) (st : List Section × Option Section),
      parseBlocks (xs ++ ys) st = parseBlocks ys (parseBlocks xs st) := by
  intro xs
  induction xs with
  | nil => intro ys st; rfl
  | cons b xs ih =>
    intro ys st
    show parseBlocks (xs ++ ys) (parseStep st b) = _
    rw [ih ys (parseStep st b)]
    rfl

theorem parseStep_frame (d : List Section) (cur : Option Section) (b : NBlock) :
    parseStep (d, cur) b
      = (d ++ (parseStep ([], cur) b).1, (parseStep ([], cur) b).2) := by
  unfold parseStep
  by_cases hb : isBlank b.text = true
  · simp [hb]
  · rw [if_neg hb, if_neg hb]
    by_cases hh : isHeadingType b.type = true
    · simp [hh]
    · rw [if_neg hh, if_neg hh]
      by_cases ht : b.type = "toggle".data
      · rw [if_pos ht, if_pos ht]
        cases cur <;> simp
      · rw [if_neg ht, if_neg ht]
        cases cur <;> simp

theorem parseBlocks_frame :
    ∀ (bs : List NBlock) (d : List Section) (cur : Option Section),
      parseBlocks bs (d, cur)
        = (d ++ (parseBlocks bs ([], cur)).1, (parseBlocks bs ([], cur)).2) := by
  intro bs
  induction bs with
  | nil => intro d cur; simp [parseBlocks]
  | cons b bs ih =>
    intro d cur
    show parseBlocks bs (parseStep (d, cur) b)
      = (d ++ (parseBlocks bs (parseStep ([], cur) b)).1,
         (parseBlocks bs (parseStep ([], cur) b)).2)
    rw [parseStep_frame d cur b,
      ih (d ++ (parseStep ([], cur) b).1) (parseStep ([], cur) b).2]
    rw [show parseStep ([], cur) b
        = ((parseStep ([], cur) b).1, (parseStep ([], cur) b).2) from rfl,
      ih (parseStep ([], cur) b).1 (parseStep ([], cur) b).2]
    simp

theorem parseBlocks_blank :
    ∀ pre : List NBlock, (∀ p ∈ pre, isBlank p.text = true) →
      parseBlocks pre ([], none) = ([], none) := by
  intro pre
  induction pre with
  | nil => intro _; rfl
  | cons b bs ih =>
    intro h
    show parseBlocks bs (parseStep ([], none) b) = ([], none)
    have hstep : parseStep ([], none) b = ([], none) := by
      unfold parseStep
      simp [h b (by simp)]
    rw [hstep]
    exact ih (fun p hp => h p (by simp [hp]))

theorem parseBlocks_head :
    ∀ (rest : List NBlock) (s : Section),
      ∃ s' tl,
        (parseBlocks rest ([], some s)).1 ++ (parseBlocks rest ([], some s)).2.toList
          = s' :: tl
        ∧ s'.type = s.type ∧ s'.level = s.level ∧ s'.title = s.title
        ∧ ∃ u, s.content ++ u = s'.content := by
  intro rest
  induction rest with
  | nil =>
    intro s
    exact ⟨s, [], by simp [parseBlocks], rfl, rfl, rfl, [], by simp⟩
  | cons b bs ih =>
    intro s
    show ∃ s' tl,
        (parseBlocks bs (parseStep ([], some s) b)).1
            ++ (parseBlocks bs (parseStep ([], some s) b)).2.toList = s' :: tl
        ∧ _
    by_cases hb : isBlank b.text = true
    · have hstep : parseStep ([], some s) b = ([], some s) := by
        unfold parseStep
        simp [hb]
      rw [hstep]
      exact ih s
    · by_cases hh : isHeadingType b.type = true
      · have hstep : parseStep ([], some s) b = ([s], some (mkHeadingSection b)) := by
          unfold parseStep
          rw [if_neg hb, if_pos hh]
          rfl
        rw [hstep, parseBlocks_frame bs [s] (some (mkHeadingSection b))]
        refine ⟨s, (parseBlocks bs ([], some (mkHeadingSection b))).1
            ++ (parseBlocks bs ([], some (mkHeadingSection b))).2.toList,
          ?_, rfl, rfl, rfl, [], by simp⟩
        simp
      · by_cases ht : b.type = "toggle".data
        · have hstep : parseStep ([], some s) b
              = ([], some { s with sops := s.sops ++ [toggleSop b.text] }) := by
            unfold parseStep
            rw [if_neg hb, if_neg hh, if_pos ht]
          rw [hstep]
          obtain ⟨s', tl, heq, hty, hlv, hti, u, hu⟩ :=
            ih { s with sops := s.sops ++ [toggleSop b.text] }
          exact ⟨s', tl, heq, hty, hlv, hti, u, by simpa using hu⟩
        · have hstep : parseStep ([], some s) b
              = ([], some { s with content := s.content ++ [mkContentBlock b] }) := by
            unfold parseStep
            rw [if_neg hb, if_neg hh, if_neg ht]
          rw [hstep]
          obtain ⟨s', tl, heq, hty, hlv, hti, u, hu⟩ :=
            ih { s with content := s.content ++ [mkContentBlock b] }
          refine ⟨s', tl, heq, hty, hlv, hti, mkContentBlock b :: u, ?_⟩
          simpa using hu

theorem parseBlocks_hsel :
    ∀ (bs : List NBlock) (st : List Section × Option Section),
      headingSel ((parseBlocks bs st).1 ++ (parseBlocks bs st).2.toList)
        = headingSel (st.1 ++ st.2.toList)
          ++ (bs.filter (fun b => isHeadingType b.type && !isBlank b.text)).map
              (fun b => (b.type, b.text)) := by
  intro bs
  induction bs with
  | nil =>
    intro st
    simp [parseBlocks]
  | cons b bs ih =>
    rintro ⟨d, cur⟩
    have hrec : parseBlocks (b :: bs) (d, cur) = parseBlocks bs (parseStep (d, cur) b) := rfl
    rw [hrec, ih (parseStep (d, cur) b)]
    have hstep : headingSel ((parseStep (d, cur) b).1 ++ (parseStep (d, cur) b).2.toList)
        = headingSel (d ++ cur.toList)
          ++ (if isHeadingType b.type && !isBlank b.text
              then [(b.type, b.text)] else []) := by
      unfold parseStep
      by_cases hb : isBlank b.text = true
      · simp [hb]
      · have hb' : isBlank b.text = false := by
          revert hb
          cases isBlank b.text <;> simp
        rw [if_neg hb]
        by_cases hh : isHeadingType b.type = true
        · rw [if_pos hh]
          show headingSel ((d ++ cur.toList) ++ [mkHeadingSection b]) = _
          rw [headingSel_append, headingSel_heading]
          simp [hh, hb']
        · have hh' : isHeadingType b.type = false := by
            revert hh
            cases isHeadingType b.type <;> simp
          rw [if_neg hh]
          by_cases ht : b.type = "toggle".data
          · rw [if_pos ht]
            cases cur with
            | none =>
              show headingSel (d ++ [mkSopSection (toggleSop b.text)])
                  = headingSel (d ++ []) ++ _
              rw [headingSel_append, headingSel_append, headingSel_sop]
              simp [hh', headingSel]
            | some c =>
              show headingSel (d ++ [{ c with sops := c.sops ++ [toggleSop b.text] }])
                  = headingSel (d ++ [c]) ++ _
              rw [headingSel_append, headingSel_append,
                headingSel_eq_of { c with sops := c.sops ++ [toggleSop b.text] } c rfl rfl rfl]
              simp [hh']
          · rw [if_neg ht]
            cases cur with
            | none =>
              show headingSel (d ++ [mkRootSection (mkContentBlock b)])
                  = headingSel (d ++ []) ++ _
              rw [headingSel_append, headingSel_append, headingSel_root]
              simp [hh', headingSel]
            | some c =>
              show headingSel (d ++ [{ c with content := c.content ++ [mkContentBlock b] }])
                  = headingSel (d ++ [c]) ++ _
              rw [headingSel_append, headingSel_append,
                headingSel_eq_of { c with content := c.content ++ [mkContentBlock b] } c rfl rfl rfl]
              simp [hh']
    rw [hstep, List.filter_cons]
    by_cases hcond : (isHeadingType b.type && !isBlank b.text) = true
    · simp [hcond]
    · have hcond' : (isHeadingType b.type && !isBlank b.text) = false := by
        revert hcond
        cases (isHeadingType b.type && !isBlank b.text) <;> simp
      simp [hcond']

/-- Claim C7, confirmed.  (1) The heading-opened sections of the parse
result, in order, are exactly the non-blank heading blocks of the template,
in encounter order, each carrying that heading's level and text as its level
and title.  (2) A non-blank heading block starts a new section after pushing
the previous one: the parse of `pre ++ heading :: rest` is the parse of
`pre` followed by the parse of `heading :: rest`.  (3) A non-empty block
that is neither a heading nor a toggle (toggles are instruction metadata,
not content) appearing before any heading creates the implicit root section
(`Template Content`), whose first content entry is that block. -/
theorem C7_parser_order (bs pre rest : List NBlock) (hblk b0 : NBlock) :
    headingSel (parseTemplate bs).sections
      = (bs.filter (fun b => isHeadingType b.type && !isBlank b.text)).map
          (fun b => (b.type, b.text))
    ∧ (isHeadingType hblk.type = true → isBlank hblk.text = false →
        (parseTemplate (pre ++ hblk :: rest)).sections
          = (parseTemplate pre).sections ++ (parseTemplate (hblk :: rest)).sections)
    ∧ ((∀ p ∈ pre, isBlank p.text = true) → isBlank b0.text = false →
        isHeadingType b0.type = false → b0.type ≠ "toggle".data →
        ((parseTemplate (pre ++ b0 :: rest)).sections.head?).map
            (fun s => (s.type, s.level, s.title, s.content.head?))
          = some ("content".data, "root".data, "Template Content".data,
              some (mkContentBlock b0))) := by
  refine ⟨?_, ?_, ?_⟩
  · have hmain := parseBlocks_hsel bs ([], none)
    unfold parseTemplate
    simp only
    rw [hmain]
    simp [headingSel]
  · intro hh hb
    unfold parseTemplate
    simp only
    rw [parseBlocks_append pre (hblk :: rest) ([], none)]
    rcases hpre : parseBlocks pre ([], none) with ⟨d, c⟩
    have hstep : parseStep (d, c) hblk = (d ++ c.toList, some (mkHeadingSection hblk)) := by
      unfold parseStep
      rw [if_neg (by simp [hb]), if_pos hh]
    have hstep0 : parseStep ([], none) hblk = ([], some (mkHeadingSection hblk)) := by
      unfold parseStep
      rw [if_neg (by simp [hb]), if_pos hh]
      rfl
    show (parseBlocks rest (parseStep (d, c) hblk)).1
        ++ (parseBlocks rest (parseStep (d, c) hblk)).2.toList
      = (d ++ c.toList)
        ++ ((parseBlocks rest (parseStep ([], none) hblk)).1
            ++ (parseBlocks rest (parseStep ([], none) hblk)).2.toList)
    rw [hstep, hstep0,
      parseBlocks_frame rest (d ++ c.toList) (some (mkHeadingSection hblk))]
    simp
  · intro hpre hb hh ht
    unfold parseTemplate
    simp only
    rw [parseBlocks_append pre (b0 :: rest) ([], none), parseBlocks_blank pre hpre]
    have hstep : parseStep ([], none) b0
        = ([], some (mkRootSection (mkContentBlock b0))) := by
      unfold parseStep
      rw [if_neg (by simp [hb]), if_neg (by simp [hh]), if_neg ht]
    show ((parseBlocks rest (parseStep ([], none) b0)).1
        ++ (parseBlocks rest (parseStep ([], none) b0)).2.toList).head?.map _ = _
    rw [hstep]
    obtain ⟨s', tl, heq, hty, hlv, hti, u, hu⟩ :=
      parseBlocks_head rest (mkRootSection (mkContentBlock b0))
    rw [heq]
    have hcontent : s'.content = mkContentBlock b0 :: u := by
      rw [← hu]
      rfl
    show some (s'.type, s'.level, s'.title, s'.content.head?) = _
    rw [hty, hlv, hti, hcontent]
    rfl

/-- Witness for C7: a template starting with a paragraph and then a heading
yields exactly that heading as the single heading-opened section, and the
paragraph lands as first content of the implicit root section. -/
theorem C7_witness :
    headingSel (parseTemplate
        [⟨"paragraph".data, "intro".data⟩, ⟨"heading_2".data, "A".data⟩]).sections
      = [("heading_2".data, "A".data)]
    ∧ ((parseTemplate
          ([] ++ (⟨"paragraph".data, "intro".data⟩ : NBlock)
            :: [⟨"heading_2".data, "A".data⟩])).sections.head?).map
        (fun s => (s.type, s.level, s.title, s.content.head?))
      = some ("content".data, "root".data, "Template Content".data,
          some (mkContentBlock ⟨"paragraph".data, "intro".data⟩)) :=
  ⟨((C7_parser_order
      [⟨"paragraph".data, "intro".data⟩, ⟨"heading_2".data, "A".data⟩]
      [] [] ⟨"heading_2".data, "A".data⟩ ⟨"paragraph".data, "intro".data⟩).1).trans
    (by decide),
   (C7_parser_order
      [⟨"paragraph".data, "intro".data⟩, ⟨"heading_2".data, "A".data⟩]
      [] [⟨"heading_2".data, "A".data⟩] ⟨"heading_2".data, "A".data⟩
      ⟨"paragraph".data, "intro".data⟩).2.2
    (by simp) (by decide) (by decide) (by decide)⟩

/-! ## C9 — completeness checker -/

theorem findFieldGo_truthy (fuel : Nat) (b : Brief) (f : JStr) (v : JValue)
    (h : findFieldGo fuel b f = some v) : truthy v = true := by
  cases fuel with
  | zero => simp [findFieldGo] at h
  | succ fuel =>
    unfold findFieldGo at h
    cases h1 : firstHit
        [f, jsToLower f, underscoreToSpace f, jsToLower (removeUnderscores f)]
        (fun k =>
          match lookupJS k b with
          | some v => if truthy v then some v else none
          | none => none) with
    | some w =>
      rw [h1] at h
      obtain ⟨k, hk, hg⟩ := firstHit_eq_some h1
      have h' : some w = some v := h
      cases hl : lookupJS k b with
      | none =>
        rw [hl] at hg
        exact Option.noConfusion hg
      | some u =>
        rw [hl] at hg
        have hg' : (if truthy u = true then some u else none) = some w := hg
        by_cases ht : truthy u = true
        · rw [if_pos ht] at hg'
          simp only [Option.some.injEq] at hg' h'
          rw [← h', ← hg']
          exact ht
        · rw [if_neg ht] at hg'
          exact Option.noConfusion hg'
    | none =>
      rw [h1] at h
      obtain ⟨kv, hkv, hg⟩ := firstHit_eq_some h
      rcases kv with ⟨key, val⟩
      cases val with
      | obj fs =>
        cases hrec : findFieldGo fuel fs f with
        | none =>
          have hg' : (match findFieldGo fuel fs f with
              | some u => if truthy u = true then some u else none
              | none => none) = some v := hg
          rw [hrec] at hg'
          exact Option.noConfusion hg'
        | some u =>
          have hg' : (match findFieldGo fuel fs f with
              | some u => if truthy u = true then some u else none
              | none => none) = some v := hg
          rw [hrec] at hg'
          have hg'' : (if truthy u = true then some u else none) = some v := hg'
          by_cases ht : truthy u = true
          · rw [if_pos ht] at hg''
            simp only [Option.some.injEq] at hg''
            rw [← hg'']
            exact ht
          · rw [if_neg ht] at hg''
            exact Option.noConfusion hg''
      | str s => exact Option.noConfusion hg
      | num n => exact Option.noConfusion hg
      | bool x => exact Option.noConfusion hg
      | null => exact Option.noConfusion hg
      | arr xs => exact Option.noConfusion hg

/-- Claim C9, confirmed.  For every brief: (1) the soft flags are exactly one
per flagged core field — the fixed list project_name, deliverables, timeline —
in that order, each carrying the human-readable label `humanizeKey f`; no
other brief key can produce a flag.  (2) `complete` is false exactly when at
least one soft flag was raised.  (3) A core field whose lookup yields no
value or the literal token "TBD" satisfies the code's flag condition, hence
produces its flag.  (4) The lookup never yields a non-truthy value (so "an
empty value" can only manifest as "no value", which is flagged).  (5)–(7)
The check is advisory: the remaining assessment fields are returned
untouched and the checker is a total function that always produces an
assessment, never an exception. -/
theorem C9_completeness_checker (brief : Brief) :
    (assessCompleteness brief).softFlags
      = (coreFields.filter (codeFlagged brief)).map
          (fun f => mkSoftFlag (humanizeKey f))
    ∧ ((assessCompleteness brief).complete = false
        ↔ (assessCompleteness brief).softFlags ≠ [])
    ∧ (∀ f ∈ coreFields, claimFlagged brief f = true → codeFlagged brief f = true)
    ∧ (∀ f v, findFieldValue brief f = some v → truthy v = true)
    ∧ (assessCompleteness brief).normalTBDs = []
    ∧ (assessCompleteness brief).criticalMissing = []
    ∧ (assessCompleteness brief).complexityAppropriate = true := by
  refine ⟨?_, ?_, ?_, fun f v hv => findFieldGo_truthy _ _ _ _ hv, ?_, ?_, ?_⟩
  · by_cases h1 : codeFlagged brief "project_name".data = true <;>
      by_cases h2 : codeFlagged brief "deliverables".data = true <;>
      by_cases h3 : codeFlagged brief "timeline".data = true <;>
      simp [assessCompleteness, coreFields, h1, h2, h3]
  · by_cases h1 : codeFlagged brief "project_name".data = true <;>
      by_cases h2 : codeFlagged brief "deliverables".data = true <;>
      by_cases h3 : codeFlagged brief "timeline".data = true <;>
      simp [assessCompleteness, coreFields, h1, h2, h3]
  · intro f _hf hc
    cases hv : findFieldValue brief f with
    | none => simp [codeFlagged, hv]
    | some v =>
      cases v with
      | str s =>
        simp only [claimFlagged, hv] at hc
        have hs : s = "TBD".data := by simpa using hc
        subst hs
        simp only [codeFlagged, hv]
        decide
      | num n => simp [claimFlagged, hv] at hc
      | bool x => simp [claimFlagged, hv] at hc
      | null => simp [claimFlagged, hv] at hc
      | arr xs => simp [claimFlagged, hv] at hc
      | obj fs => simp [claimFlagged, hv] at hc
  · by_cases h1 : codeFlagged brief "project_name".data = true <;>
      by_cases h2 : codeFlagged brief "deliverables".data = true <;>
      by_cases h3 : codeFlagged brief "timeline".data = true <;>
      simp [assessCompleteness, coreFields, h1, h2, h3]
  · by_cases h1 : codeFlagged brief "project_name".data = true <;>
      by_cases h2 : codeFlagged brief "deliverables".data = true <;>
      by_cases h3 : codeFlagged brief "timeline".data = true <;>
      simp [assessCompleteness, coreFields, h1, h2, h3]
  · by_cases h1 : codeFlagged brief "project_name".data = true <;>
      by_cases h2 : codeFlagged brief "deliverables".data = true <;>
      by_cases h3 : codeFlagged brief "timeline".data = true <;>
      simp [assessCompleteness, coreFields, h1, h2, h3]

/-- Witness for C9 at a brief whose only data is a nested object carrying a
literal "TBD" project name: the nested descent finds it, the claim-side flag
condition holds and via the theorem so does the code's, and the resulting
assessment is incomplete. -/
theorem C9_witness :
    ("project_name".data ∈ coreFields
      ∧ claimFlagged
          [("notes".data, JValue.obj [("project_name".data, JValue.str "TBD".data)])]
          "project_name".data = true)
    ∧ codeFlagged
        [("notes".data, JValue.obj [("project_name".data, JValue.str "TBD".data)])]
        "project_name".data = true
    ∧ (assessCompleteness
        [("notes".data, JValue.obj [("project_name".data, JValue.str "TBD".data)])]).complete
      = false :=
  ⟨⟨by decide, by decide⟩,
   (C9_completeness_checker
       [("notes".data, JValue.obj [("project_name".data, JValue.str "TBD".data)])]).2.2.1
     "project_name".data (by decide) (by decide),
   ((C9_completeness_checker
       [("notes".data, JValue.obj [("project_name".data, JValue.str "TBD".data)])]).2.1).mpr
     (by decide)⟩

end IE7

